import Mathlib

/-!
A shallow embedding of the yini configuration-file parser (src/src/lib.rs)
and proofs checking the specification's claims against it.

The Rust parser works over a byte buffer (`input: &[u8]`) with a cursor
(`pos`, `line`, `column`) and an append-only diagnostics list.  We embed
bytes as `Nat` (0..255), the buffer as `List Nat`, and every parsing
routine as a pure function on an explicit parser state.  Rust loops that
plainly advance the cursor are embedded with an auxiliary structural fuel
argument initialised to `input.length - pos` (always enough, since each
iteration consumes one byte); the recursive-descent entry points, whose
termination is exactly what claim C1 is about, take an explicit fuel
parameter and return `none` when it runs out.
-/

namespace Yini

/-- Bytes of the UTF-8 text "true". -/
def trueBytes : List Nat := [116, 114, 117, 101]

/-- Bytes of the UTF-8 text "false". -/
def falseBytes : List Nat := [102, 97, 108, 115, 101]

/-- Embeds `ErrorKind` from src/src/lib.rs.  `invalidFloatFormat` /
`invalidIntegerFormat` carry the offending slice (as bytes);
`unexpectedCharacter` carries the offending byte (Rust casts it to
`char`, which for a single byte is the same scalar value). -/
inductive ErrorKind where
  | expectedValueOnSameLine
  | expectedNewlineAfterKeyValue
  | unterminatedBlock
  | unterminatedString
  | invalidUtf8InNumber
  | invalidFloatFormat : List Nat → ErrorKind
  | invalidIntegerFormat : List Nat → ErrorKind
  | unexpectedEndOfInput
  | unexpectedCharacter : Nat → ErrorKind
deriving DecidableEq, Repr

/-- Embeds `ParseError` from src/src/lib.rs: 1-based line/column plus a kind. -/
structure ParseError where
  line : Nat
  column : Nat
  kind : ErrorKind
deriving DecidableEq, Repr

/-- A binary64 floating-point value, as produced by Rust's `str::parse::<f64>`
on the decimal literals this grammar can produce (no NaN is reachable).
`finite sign m e` denotes `(-1)^sign * m * 2^e`. -/
inductive F64 where
  | finite : Bool → Nat → Int → F64
  | inf : Bool → F64
deriving DecidableEq, Repr

/-- Embeds `Value` from src/src/lib.rs.  Strings are byte lists (escapes already
resolved), structs are ordered key/value lists. -/
inductive Value where
  | str : List Nat → Value
  | int : Int → Value
  | num : F64 → Value
  | bool : Bool → Value
  | variant : List Nat → Option Value → Value
  | struct : List (List Nat × Value) → Value
  | array : List Value → Value
  | tuple : List Value → Value
deriving Repr

/-- Embeds `Struct` = `SeqMap<String, Value>`: an ordered string-keyed map. -/
abbrev StructM : Type := List (List Nat × Value)

/-- Modelled from the spec: the `seq_map::SeqMap` dependency is not part of
src/, so its `insert` is taken from the spec's words — "insertion of a
duplicate key replaces the value but the map never holds two entries with
the same key", with insertion order preserved for iteration. -/
def structInsert (m : StructM) (k : List Nat) (v : Value) : StructM :=
  if (List.any m (fun p => p.1 = k)) then
    List.map (fun p => if p.1 = k then (k, v) else p) m
  else m ++ [(k, v)]

/-- The parser state: `Parser` from src/src/lib.rs minus the borrowed
input reference, which we carry by value.  The Rust field `len` is always
`input.len()`, so it is represented by `input.length`. -/
structure PState where
  input : List Nat
  pos : Nat
  line : Nat
  column : Nat
  errors : List ParseError
deriving DecidableEq, Repr

/-- Embeds `Parser::new`: cursor at the start, line 1, column 1, no errors. -/
def initState (input : List Nat) : PState :=
  { input := input, pos := 0, line := 1, column := 1, errors := [] }

/-- Embeds `Parser::peek_byte`. -/
def peekByte (s : PState) : Option Nat := s.input.get? s.pos

/-- Embeds `Parser::is_eof`. -/
def isEof (s : PState) : Bool := decide (s.input.length ≤ s.pos)

/-- Embeds `Parser::advance_byte`: advance one position, tracking line/column. -/
def advanceByte (s : PState) (b : Nat) : PState :=
  if b = 10 then { s with pos := s.pos + 1, line := s.line + 1, column := 1 }
  else { s with pos := s.pos + 1, column := s.column + 1 }

/-- Embeds `Parser::next_byte`. -/
def nextByte (s : PState) : Option Nat × PState :=
  match peekByte s with
  | some b => (some b, advanceByte s b)
  | none => (none, s)

/-- Push a diagnostic at the current cursor position (the
`self.errors.push(ParseError { line, column, kind })` pattern). -/
def pushErr (s : PState) (k : ErrorKind) : PState :=
  { s with errors := s.errors ++ [⟨s.line, s.column, k⟩] }

/-- The scan loops in the source advance `pos`/`column` directly without
line tracking (they never cross a newline); this is that step. -/
def bump (s : PState) : PState :=
  { s with pos := s.pos + 1, column := s.column + 1 }

/-- Embeds `Parser::slice_to_str(start, end)`: the bytes `input[start..end]`. -/
def sliceBytes (s : PState) (a b : Nat) : List Nat :=
  List.take (b - a) (List.drop a s.input)

/-- ASCII decimal digit test (`u8::is_ascii_digit`). -/
def isDigitB (b : Nat) : Bool := decide (48 ≤ b) && decide (b ≤ 57)

/-- The delimiter set of `parse_identifier_or_string` and
`parse_variant_name` (both use the same set): whitespace and
`{` `}` `[` `]` `:` `(` `)`. -/
def isIdentDelim (b : Nat) : Bool :=
  b = 32 || b = 9 || b = 10 || b = 13 || b = 123 || b = 125 ||
  b = 91 || b = 93 || b = 58 || b = 40 || b = 41

/-- One byte of `skip_ws_and_comments`'s whitespace set (space/tab/LF/CR). -/
def isWsB (b : Nat) : Bool := b = 32 || b = 9 || b = 10 || b = 13

/-- The whitespace loop of `Parser::skip_ws_and_comments` (aux, fuelled by
remaining input length). -/
def skipWsAux : Nat → PState → PState
  | 0, s => s
  | f+1, s =>
    match peekByte s with
    | some b => if isWsB b then skipWsAux f (advanceByte s b) else s
    | none => s

/-- The whitespace loop of `Parser::skip_ws_and_comments`. -/
def skipWsRun (s : PState) : PState := skipWsAux (s.input.length - s.pos) s

/-- The comment body loop of `skip_ws_and_comments`:
`while let Some(b) = next_byte { if b == b'\n' break }`. -/
def commentBodyAux : Nat → PState → PState
  | 0, s => s
  | f+1, s =>
    match peekByte s with
    | some b => if b = 10 then advanceByte s b else commentBodyAux f (advanceByte s b)
    | none => s

/-- The comment body loop of `skip_ws_and_comments`. -/
def commentBody (s : PState) : PState := commentBodyAux (s.input.length - s.pos) s

/-- Embeds `Parser::skip_ws_and_comments` (aux, fuelled by remaining length: each
comment round consumes at least the `#`). -/
def skipWsCommentsAux : Nat → PState → PState
  | 0, s => skipWsRun s
  | f+1, s =>
    let s1 := skipWsRun s
    if peekByte s1 = some 35 then skipWsCommentsAux f (commentBody (advanceByte s1 35))
    else s1

/-- Embeds `Parser::skip_ws_and_comments`. -/
def skipWsComments (s : PState) : PState :=
  skipWsCommentsAux (s.input.length - s.pos) s

/-- Embeds `Parser::skip_horizontal_ws` (aux). -/
def skipHwsAux : Nat → PState → PState
  | 0, s => s
  | f+1, s =>
    match peekByte s with
    | some b => if b = 32 || b = 9 then skipHwsAux f (bump s) else s
    | none => s

/-- Embeds `Parser::skip_horizontal_ws`: consumes only space/tab. -/
def skipHws (s : PState) : PState := skipHwsAux (s.input.length - s.pos) s

/-- The byte loop of `parse_identifier_or_string` / `parse_variant_name`
(aux): scan up to the next delimiter. -/
def scanIdentAux : Nat → PState → PState
  | 0, s => s
  | f+1, s =>
    match peekByte s with
    | some b => if isIdentDelim b then s else scanIdentAux f (bump s)
    | none => s

/-- The byte loop of `parse_identifier_or_string` / `parse_variant_name`. -/
def scanIdent (s : PState) : PState := scanIdentAux (s.input.length - s.pos) s

/-- The digit loop of `parse_numeric` (aux). -/
def scanDigitsAux : Nat → PState → PState
  | 0, s => s
  | f+1, s =>
    match peekByte s with
    | some b => if isDigitB b then scanDigitsAux f (bump s) else s
    | none => s

/-- The digit loop of `parse_numeric`. -/
def scanDigits (s : PState) : PState := scanDigitsAux (s.input.length - s.pos) s

/-- The body loop of `Parser::parse_string` (aux): consume until the
closing quote, translating two-character escapes; at end of input report
`UnterminatedString` and return the partial content. -/
def stringBodyAux : Nat → PState → List Nat → List Nat × PState
  | 0, s, raw => (raw, s)
  | f+1, s, raw =>
    match peekByte s with
    | none => (raw, pushErr s .unterminatedString)
    | some b =>
      let s1 := advanceByte s b
      if b = 34 then (raw, s1)
      else if b = 92 then
        (match peekByte s1 with
         | none => stringBodyAux f s1 raw
         | some e =>
           let c := if e = 110 then 10 else if e = 116 then 9 else if e = 114 then 13
                    else if e = 34 then 34 else if e = 92 then 92 else e
           stringBodyAux f (advanceByte s1 e) (raw ++ [c]))
      else stringBodyAux f s1 (raw ++ [b])

/-- Embeds `Parser::parse_string`: consume the opening quote, then the body. -/
def parseStringFn (s : PState) : List Nat × PState :=
  let s0 := (nextByte s).2
  stringBodyAux (s0.input.length - s0.pos + 1) s0 []

/-- Embeds `Parser::parse_identifier_or_string`. -/
def parseIdentOrString (s : PState) : List Nat × PState :=
  let s0 := skipWsComments s
  if peekByte s0 = some 34 then parseStringFn s0
  else
    let s1 := scanIdent s0
    (sliceBytes s1 s0.pos s1.pos, s1)

/-- Embeds `Parser::parse_key` = skip whitespace/comments + identifier-or-string. -/
def parseKey (s : PState) : List Nat × PState :=
  parseIdentOrString (skipWsComments s)

/-- Embeds `Parser::parse_variant_name`: same scan as identifiers, but with no
leading whitespace skipping. -/
def parseVariantNameFn (s : PState) : List Nat × PState :=
  let s1 := scanIdent s
  (sliceBytes s1 s.pos s1.pos, s1)

/-- The `while … next_byte` loop of `parse_field_value` (aux): consume to
the next newline or comment marker. -/
def toLineEndAux : Nat → PState → PState
  | 0, s => s
  | f+1, s =>
    match peekByte s with
    | some b => if b = 10 || b = 35 then s else toLineEndAux f (advanceByte s b)
    | none => s

/-- The rest-of-line consumption loop of `parse_field_value`. -/
def toLineEnd (s : PState) : PState := toLineEndAux (s.input.length - s.pos) s

/-- The free-text collection loop of `parse_tuple` (aux): consume until
`)`, `#` or newline. -/
def tupleTextAux : Nat → PState → PState
  | 0, s => s
  | f+1, s =>
    match peekByte s with
    | some b => if b = 41 || b = 35 || b = 10 then s else tupleTextAux f (advanceByte s b)
    | none => s

/-- The free-text collection loop of `parse_tuple`. -/
def tupleText (s : PState) : PState := tupleTextAux (s.input.length - s.pos) s

/-- The byte-consumption loop of `Parser::synchronize` (aux). -/
def syncAux : Nat → PState → PState
  | 0, s => s
  | f+1, s =>
    match peekByte s with
    | none => s
    | some b => if b = 10 then (nextByte s).2 else syncAux f ((nextByte s).2)

/-- Embeds `Parser::synchronize`: advance past the next newline, then skip
whitespace and comments. -/
def synchronize (s : PState) : PState :=
  skipWsComments (syncAux (s.input.length - s.pos) s)

/-- Embeds `Parser::require_newline_or_eof`. -/
def requireNewlineOrEof (s : PState) : PState :=
  let s1 := skipHws s
  if isEof s1 then s1
  else if peekByte s1 = some 10 then s1
  else if peekByte s1 = some 35 then s1
  else pushErr s1 .expectedNewlineAfterKeyValue

/-! ### Number literals

`parse_numeric` hands its captured slice to `str::parse::<i64>` /
`str::parse::<f64>` from the Rust standard library.  Those are external
to src/: we model `i64` parsing by its documented semantics (exact
decimal value, failing outside the signed 64-bit range) and `f64`
parsing by its documented semantics (round-to-nearest, ties-to-even
binary64 conversion of the decimal text, overflowing to infinity),
restricted to the literal shapes `parse_numeric` can capture
(`-?[0-9]*(\.[0-9]*)?`). -/

/-- The non-negative integer denoted by a list of ASCII digit bytes. -/
def decDigits (l : List Nat) : Nat :=
  List.foldl (fun a b => a * 10 + (b - 48)) 0 l

/-- Whether `num/den ≥ 2^p` (exact rational comparison). -/
def geScaled (num den : Nat) (p : Int) : Bool :=
  if 0 ≤ p then decide (den * 2 ^ p.toNat ≤ num)
  else decide (den ≤ num * 2 ^ (-p).toNat)

/-- Raise a trial exponent while `num/den ≥ 2^(e+1)` (bounded walk). -/
def adjUp (num den : Nat) : Nat → Int → Int
  | 0, e => e
  | f+1, e => if geScaled num den (e + 1) then adjUp num den f (e + 1) else e

/-- Lower a trial exponent while `num/den < 2^e` (bounded walk). -/
def adjDown (num den : Nat) : Nat → Int → Int
  | 0, e => e
  | f+1, e => if geScaled num den e then e else adjDown num den f (e - 1)

/-- Computes `floor (log2 (num/den))` for positive `num`, `den`: a first guess by
bit lengths, corrected by at most three exact comparisons each way. -/
def findExp (num den : Nat) : Int :=
  let e0 : Int := (Nat.log2 num : Int) - (Nat.log2 den : Int)
  adjDown num den 3 (adjUp num den 3 e0)

/-- Round `num/den / 2^(e-52)` to the nearest integer, ties to even. -/
def roundMantissa (num den : Nat) (e : Int) : Nat :=
  let p := e - 52
  let nd := if 0 ≤ p then (num, den * 2 ^ p.toNat) else (num * 2 ^ (-p).toNat, den)
  let q := nd.1 / nd.2
  let r := nd.1 % nd.2
  if 2 * r < nd.2 then q
  else if nd.2 < 2 * r then q + 1
  else if q % 2 = 0 then q else q + 1

/-- The binary64 value nearest to `(-1)^sign * num/den` (`num`, `den`
positive), ties to even, with IEEE-754 subnormal handling and overflow
to infinity. -/
def f64OfPos (sign : Bool) (num den : Nat) : F64 :=
  let e := findExp num den
  let ec := if e < -1022 then -1022 else e
  let m0 := roundMantissa num den ec
  let me := if m0 = 2 ^ 53 then (2 ^ 52, ec + 1) else (m0, ec)
  if 1023 < me.2 then F64.inf sign else F64.finite sign me.1 (me.2 - 52)

/-- The binary64 value nearest to the decimal
`(-1)^sign * m / 10^fracLen`. -/
def f64OfDecimal (sign : Bool) (m fracLen : Nat) : F64 :=
  if m = 0 then F64.finite sign 0 0 else f64OfPos sign m (10 ^ fracLen)

/-- Sign handling of the Rust numeric `FromStr` conversions: strip one
leading `-`. -/
def stripSign (l : List Nat) : Bool × List Nat :=
  match l with
  | b :: r => if b = 45 then (true, r) else (false, b :: r)
  | [] => (false, [])

/-- Modelled from the spec (and the Rust standard library, which is not
part of src/): `str::parse::<f64>` on the slices `parse_numeric`
captures — an optional `-`, digits, optionally `.` and digits; at least
one digit must be present.  The result is the nearest binary64 value. -/
def f64FromStr (l : List Nat) : Option F64 :=
  let sl := stripSign l
  let d1 := List.takeWhile isDigitB sl.2
  let r1 := List.dropWhile isDigitB sl.2
  match r1 with
  | [] => if d1 = [] then none else some (f64OfDecimal sl.1 (decDigits d1) 0)
  | 46 :: r2 =>
    let d2 := List.takeWhile isDigitB r2
    let r3 := List.dropWhile isDigitB r2
    if r3 = [] ∧ (d1 ≠ [] ∨ d2 ≠ []) then
      some (f64OfDecimal sl.1 (decDigits (d1 ++ d2)) d2.length)
    else none
  | _ => none

/-- Modelled from the spec (and the Rust standard library, which is not
part of src/): `str::parse::<i64>` — the exact decimal value when it
lies in the signed 64-bit range, an error otherwise. -/
def i64FromStr (l : List Nat) : Option Int :=
  let sl := stripSign l
  if sl.2 = [] ∨ ¬ List.all sl.2 isDigitB then none
  else
    let v : Int := if sl.1 then -(decDigits sl.2 : Int) else (decDigits sl.2 : Int)
    if -(2 ^ 63) ≤ v ∧ v < 2 ^ 63 then some v else none

/-- Embeds `Parser::parse_numeric`: optional sign, digits, optional `.` and
digits; the captured slice is parsed as i64 or f64, substituting zero
placeholders (with a diagnostic) on failure.  The slice is always ASCII,
so the source's UTF-8 validity check is the all-bytes-below-128 test. -/
def parseNumeric (s : PState) : Value × PState :=
  let start := s.pos
  let s1 := if peekByte s = some 45 then bump s else s
  let s2 := scanDigits s1
  let fs := if peekByte s2 = some 46 then (true, scanDigits (bump s2)) else (false, s2)
  let isFloat := fs.1
  let s3 := fs.2
  let slice := sliceBytes s3 start s3.pos
  if ¬ List.all slice (fun b => decide (b < 128)) then
    (Value.int 0, pushErr s3 .invalidUtf8InNumber)
  else if isFloat then
    match f64FromStr slice with
    | some n => (Value.num n, s3)
    | none => (Value.num (F64.finite false 0 0), pushErr s3 (.invalidFloatFormat slice))
  else
    match i64FromStr slice with
    | some n => (Value.int n, s3)
    | none => (Value.int 0, pushErr s3 (.invalidIntegerFormat slice))

/-- Modelled from Rust `str::trim` restricted to the byte level: leading
and trailing White_Space bytes are removed.  The ASCII bytes with the
Unicode White_Space property are exactly TAB, LF, VT, FF, CR and space. -/
def isTrimWs (b : Nat) : Bool :=
  b = 9 || b = 10 || b = 11 || b = 12 || b = 13 || b = 32

/-- Rust `str::trim` on a byte slice (ASCII whitespace). -/
def trimBytes (l : List Nat) : List Nat :=
  List.reverse (List.dropWhile isTrimWs (List.reverse (List.dropWhile isTrimWs l)))

/-! ### The recursive-descent core

`parse_value`, `parse_tuple`, `parse_struct`, `parse_array` and
`parse_field_value` are mutually recursive, and their loops are the ones
whose termination claim C1 asserts.  They take explicit fuel; `none`
means the fuel ran out, so `∀ fuel, … = none` states that the source
loops forever. -/

mutual

/-- Embeds `Parser::parse_value`: dispatch on the next byte. -/
def parseValue : Nat → PState → Option (Value × PState)
  | 0, _ => none
  | n+1, s =>
    let s0 := skipWsComments s
    match peekByte s0 with
    | some 40 => parseTuple n s0
    | some 34 =>
      let p := parseStringFn s0
      some (Value.str p.1, p.2)
    | some 123 =>
      Option.map (fun r => (Value.struct r.1, r.2)) (parseStructBody n (nextByte s0).2)
    | some 91 =>
      Option.map (fun r => (Value.array r.1, r.2)) (parseArrayBody n (nextByte s0).2)
    | some 58 =>
      let p := parseVariantNameFn (nextByte s0).2
      match peekByte p.2 with
      | some 40 =>
        Option.map (fun r => (Value.variant p.1 (some r.1), r.2)) (parseTuple n p.2)
      | some 123 =>
        Option.map (fun r => (Value.variant p.1 (some (Value.struct r.1)), r.2))
          (parseStructBody n (nextByte p.2).2)
      | some 91 =>
        Option.map (fun r => (Value.variant p.1 (some (Value.array r.1)), r.2))
          (parseArrayBody n (nextByte p.2).2)
      | _ => some (Value.variant p.1 none, p.2)
    | some b =>
      if b = 45 || isDigitB b then some (parseNumeric s0)
      else
        let p := parseIdentOrString s0
        if p.1 = trueBytes then some (Value.bool true, p.2)
        else if p.1 = falseBytes then some (Value.bool false, p.2)
        else some (Value.str p.1, p.2)
    | none => some (Value.str [], pushErr s0 .unexpectedEndOfInput)

/-- Embeds `Parser::parse_tuple`: consume the `(`, then the element loop. -/
def parseTuple : Nat → PState → Option (Value × PState)
  | 0, _ => none
  | n+1, s =>
    Option.map (fun r => (Value.tuple r.1, r.2)) (parseTupleLoop n (nextByte s).2 [])

/-- The element loop of `parse_tuple`. -/
def parseTupleLoop : Nat → PState → List Value → Option (List Value × PState)
  | 0, _, _ => none
  | n+1, s, items =>
    let s1 := skipWsComments s
    if peekByte s1 = some 41 then some (items, (nextByte s1).2)
    else if isEof s1 then some (items, pushErr s1 .unexpectedEndOfInput)
    else
      match peekByte s1 with
      | none => some (items, pushErr s1 .unexpectedEndOfInput)
      | some b =>
        let elem :=
          if b = 34 || b = 123 || b = 91 || b = 40 || b = 45 || isDigitB b || b = 58 then
            parseValue n s1
          else
            let s2 := tupleText s1
            let t := trimBytes (sliceBytes s2 s1.pos s2.pos)
            if t = [] then parseValue n s2
            else if t = trueBytes then some (Value.bool true, s2)
            else if t = falseBytes then some (Value.bool false, s2)
            else some (Value.str t, s2)
        Option.bind elem (fun vs =>
          let items1 := items ++ [vs.1]
          let s4 := skipWsComments vs.2
          match peekByte s4 with
          | some 41 => some (items1, (nextByte s4).2)
          | some _ => parseTupleLoop n s4 items1
          | none => some (items1, s4))

/-- Embeds `Parser::parse_struct` (the `{…}` body, `{` already consumed). -/
def parseStructBody : Nat → PState → Option (StructM × PState)
  | 0, _ => none
  | n+1, s => parseStructLoop n (skipWsComments s) []

/-- The key/value loop of `parse_struct`: ends on `}`, or at end of
input with an `UnterminatedBlock` diagnostic. -/
def parseStructLoop : Nat → PState → StructM → Option (StructM × PState)
  | 0, _, _ => none
  | n+1, s, map =>
    match peekByte s with
    | none => some (map, pushErr s .unterminatedBlock)
    | some b =>
      if b = 125 then some (map, (nextByte s).2)
      else
        let kp := parseKey s
        if kp.1 = [] then
          let s2 := match peekByte kp.2 with
            | some b2 => pushErr kp.2 (.unexpectedCharacter b2)
            | none => kp.2
          parseStructLoop n (synchronize s2) map
        else
          let s2 := if peekByte kp.2 = some 58 then (nextByte kp.2).2 else kp.2
          let s3 := skipHws s2
          if peekByte s3 = some 10 ∨ isEof s3 then
            let s4 := pushErr s3 .expectedValueOnSameLine
            let s5 := if peekByte s4 = some 10 then (nextByte s4).2 else s4
            parseStructLoop n s5 map
          else
            Option.bind (parseFieldValue n s3) (fun vs =>
              parseStructLoop n (skipWsComments (requireNewlineOrEof vs.2))
                (structInsert map kp.1 vs.1))

/-- Embeds `Parser::parse_array` (the `[…]` body, `[` already consumed):
empty-array check, then the element loop. -/
def parseArrayBody : Nat → PState → Option (List Value × PState)
  | 0, _ => none
  | n+1, s =>
    let s1 := skipWsComments s
    if peekByte s1 = some 93 then some ([], (nextByte s1).2)
    else parseArrayLoop n s1 []

/-- The element loop of `parse_array`. -/
def parseArrayLoop : Nat → PState → List Value → Option (List Value × PState)
  | 0, _, _ => none
  | n+1, s, arr =>
    let s1 := skipWsComments s
    if peekByte s1 = some 93 then some (arr, (nextByte s1).2)
    else if isEof s1 then some (arr, pushErr s1 .unexpectedEndOfInput)
    else
      Option.bind (parseValue n s1) (fun vs =>
        let arr1 := arr ++ [vs.1]
        let s3 := skipWsComments vs.2
        match peekByte s3 with
        | some 93 => some (arr1, (nextByte s3).2)
        | some _ => parseArrayLoop n s3 arr1
        | none => some (arr1, pushErr s3 .unexpectedEndOfInput))

/-- Embeds `Parser::parse_field_value`: the document/struct-level value rule
with the unquoted rest-of-line fallback.  When the consumed rest of the
line trims to nothing, the source resets `pos` (and only `pos`) to the
saved start of the value. -/
def parseFieldValue : Nat → PState → Option (Value × PState)
  | 0, _ => none
  | n+1, s =>
    let s0 := skipHws s
    if peekByte s0 = some 40 then parseTuple n s0
    else
      let startPos := s0.pos
      Option.bind (parseValue n s0) (fun fv =>
        let s2 := skipHws fv.2
        match peekByte s2 with
        | some 10 => some (fv.1, s2)
        | some 35 => some (fv.1, s2)
        | some 125 => some (fv.1, s2)
        | none => some (fv.1, s2)
        | some _ =>
          let s3 := toLineEnd s2
          let t := trimBytes (sliceBytes s3 startPos s3.pos)
          if t = [] then some (fv.1, { s3 with pos := startPos })
          else some (Value.str t, s3))

end

/-- The `while !is_eof` loop of `Parser::parse` (document level). -/
def parseDocLoop : Nat → PState → StructM → Option (StructM × PState)
  | 0, _, _ => none
  | n+1, s, root =>
    if isEof s then some (root, s)
    else
      let kp := parseKey s
      if kp.1 = [] then
        let s2 := match peekByte kp.2 with
          | some b => pushErr kp.2 (.unexpectedCharacter b)
          | none => kp.2
        parseDocLoop n (synchronize s2) root
      else
        let s2 := if peekByte kp.2 = some 58 then (nextByte kp.2).2 else kp.2
        let s3 := skipHws s2
        if peekByte s3 = some 10 ∨ isEof s3 then
          let s4 := pushErr s3 .expectedValueOnSameLine
          let s5 := if peekByte s4 = some 10 then (nextByte s4).2 else s4
          parseDocLoop n s5 root
        else
          Option.bind (parseFieldValue n s3) (fun vs =>
            parseDocLoop n (skipWsComments (requireNewlineOrEof vs.2))
              (structInsert root kp.1 vs.1))

/-- Embeds `Parser::parse` over a freshly constructed parser (`Parser::new`
followed by the single `parse` call): the root struct plus the final
state, whose `errors` field is the diagnostics list. -/
def parseDoc (n : Nat) (input : List Nat) : Option (StructM × PState) :=
  parseDocLoop n (skipWsComments (initState input)) []

/-! ### Value accessors -/

/-- Embeds `Value::as_pair`: the first two elements of a tuple with at least
two elements. -/
def Value.asPair : Value → Option (Value × Value)
  | .tuple items =>
    if 2 ≤ items.length then some (items.getD 0 (Value.int 0), items.getD 1 (Value.int 0))
    else none
  | _ => none

/-! ### Generic helpers -/

theorem bind_none_of {α β : Type} (o : Option α) (f : α → Option β) (h : o = none) :
    Option.bind o f = none := by rw [h]; rfl

theorem map_none_of {α β : Type} (o : Option α) (f : α → β) (h : o = none) :
    Option.map f o = none := by rw [h]; rfl

/-! ### Concrete inputs used by the claims -/

/-- Bytes of the text "k: 1\nk: 2\n". -/
def dupBytes : List Nat := [107, 58, 32, 49, 10, 107, 58, 32, 50, 10]

/-- The parse of `dupBytes`: one entry for the key `k`, holding integer 2. -/
def dupResult : Option (StructM × PState) :=
  some ([([107], Value.int 2)], ⟨dupBytes, 10, 3, 1, []⟩)

/-- Bytes of the text "field_1: value1 field_2: value2\nfield_3: 123\n". -/
def c4Bytes : List Nat :=
  [102, 105, 101, 108, 100, 95, 49, 58, 32, 118, 97, 108, 117, 101, 49, 32,
   102, 105, 101, 108, 100, 95, 50, 58, 32, 118, 97, 108, 117, 101, 50, 10,
   102, 105, 101, 108, 100, 95, 51, 58, 32, 49, 50, 51, 10]

/-- Bytes of the text "outer: {\n  a: 1\n". -/
def c6Bytes : List Nat :=
  [111, 117, 116, 101, 114, 58, 32, 123, 10, 32, 32, 97, 58, 32, 49, 10]

/-- Bytes of the text "with_tuple :windowed(768 1024)". -/
def c7aBytes : List Nat :=
  [119, 105, 116, 104, 95, 116, 117, 112, 108, 101, 32, 58, 119, 105, 110,
   100, 111, 119, 101, 100, 40, 55, 54, 56, 32, 49, 48, 50, 52, 41]

/-- Bytes of the text "simple: :fullscreen". -/
def c7bBytes : List Nat :=
  [115, 105, 109, 112, 108, 101, 58, 32, 58, 102, 117, 108, 108, 115, 99,
   114, 101, 101, 110]

/-- Bytes of the token "9223372036854775808" (`2^63`, one past `i64::MAX`). -/
def overBytes : List Nat :=
  [57, 50, 50, 51, 51, 55, 50, 48, 51, 54, 56, 53, 52, 55, 55, 53, 56, 48, 56]

/-- Bytes of the text "a [}": a document-level key `a` followed by an array
whose first non-blank byte is `}`. -/
def hangBytes : List Nat := [97, 32, 91, 125]

/-- The parser state over `hangBytes` just after `parse_array` consumed `[`. -/
def hangS : PState := ⟨hangBytes, 3, 1, 4, []⟩

/-- The parser state over `hangBytes` where `parse_field_value` starts. -/
def hangMid : PState := ⟨hangBytes, 2, 1, 3, []⟩

/-! ### C10: as_pair -/

/-- C10: `as_pair` returns the first two elements of every `Tuple` with at
least two elements (also for length three or more), and `none` for shorter
tuples and every non-tuple value. -/
theorem C10_asPair :
    (∀ a b rest, Value.asPair (Value.tuple (a :: b :: rest)) = some (a, b)) ∧
    Value.asPair (Value.tuple []) = none ∧
    (∀ a, Value.asPair (Value.tuple [a]) = none) ∧
    (∀ l, Value.asPair (Value.str l) = none) ∧
    (∀ i, Value.asPair (Value.int i) = none) ∧
    (∀ x, Value.asPair (Value.num x) = none) ∧
    (∀ b, Value.asPair (Value.bool b) = none) ∧
    (∀ nm p, Value.asPair (Value.variant nm p) = none) ∧
    (∀ m, Value.asPair (Value.struct m) = none) ∧
    (∀ l, Value.asPair (Value.array l) = none) := by
  refine ⟨?_, rfl, fun a => rfl, fun l => rfl, fun i => rfl, fun x => rfl,
    fun b => rfl, fun nm p => rfl, fun m => rfl, fun l => rfl⟩
  intro a b rest
  simp [Value.asPair]

/-- Witness for C10 on a 3-element tuple. -/
theorem C10_asPair_witness :
    Value.asPair (Value.tuple [Value.int 1, Value.int 2, Value.int 3]) =
      some (Value.int 1, Value.int 2) :=
  C10_asPair.1 (Value.int 1) (Value.int 2) [Value.int 3]

/-! ### C9: determinism -/

/-- C9: parsing is deterministic — any two runs of `parse` over the same
byte buffer (each from a freshly constructed parser state) produce the
same root struct and the same diagnostics list, in the same order.  In
this embedding the parser is a pure function of the buffer, so the two
runs are literally the same computation. -/
theorem C9_deterministic (n : Nat) (input : List Nat)
    (r1 r2 : Option (StructM × PState)) :
    parseDoc n input = r1 → parseDoc n input = r2 → r1 = r2 := by
  intro h1 h2
  rw [h1] at h2
  exact h2

/-- Witness for C9 on the concrete buffer "k: 1\nk: 2\n". -/
theorem C9_deterministic_witness : dupResult = dupResult :=
  C9_deterministic 60 dupBytes dupResult dupResult rfl rfl

/-! ### C4: the field-value (rest-of-line fallback) rule -/

/-- C4: parsing "field_1: value1 field_2: value2\nfield_3: 123\n" yields
exactly two keys — `field_1` bound to the literal string
"value1 field_2: value2" and `field_3` bound to integer 123 — and there
is no `field_2` key and no diagnostic. -/
theorem C4_restOfLineFallback :
    parseDoc 60 c4Bytes =
      some ([([102, 105, 101, 108, 100, 95, 49],
              Value.str [118, 97, 108, 117, 101, 49, 32, 102, 105, 101, 108,
                         100, 95, 50, 58, 32, 118, 97, 108, 117, 101, 50]),
             ([102, 105, 101, 108, 100, 95, 51], Value.int 123)],
            ⟨c4Bytes, 45, 3, 1, []⟩) := rfl

/-! ### C6: unterminated block recovery -/

/-- C6: parsing "outer: {\n  a: 1\n" reports an `UnterminatedBlock`
diagnostic and still returns `outer` bound to a struct holding `a` mapped
to integer 1. -/
theorem C6_unterminatedBlock :
    parseDoc 60 c6Bytes =
      some ([([111, 117, 116, 101, 114], Value.struct [([97], Value.int 1)])],
            ⟨c6Bytes, 16, 3, 1, [⟨3, 1, ErrorKind.unterminatedBlock⟩]⟩) := rfl

/-! ### C7: variant payload grammar -/

/-- C7: parsing "with_tuple :windowed(768 1024)" yields a variant named
"windowed" whose payload is the tuple (768, 1024); parsing
"simple: :fullscreen" yields a payload-less variant "fullscreen" (the
byte after the name is end of input, not an opening bracket). -/
theorem C7_variantPayload :
    parseDoc 60 c7aBytes =
      some ([([119, 105, 116, 104, 95, 116, 117, 112, 108, 101],
              Value.variant [119, 105, 110, 100, 111, 119, 101, 100]
                (some (Value.tuple [Value.int 768, Value.int 1024])))],
            ⟨c7aBytes, 30, 1, 31, []⟩) ∧
    parseDoc 60 c7bBytes =
      some ([([115, 105, 109, 112, 108, 101],
              Value.variant [102, 117, 108, 108, 115, 99, 114, 101, 101, 110] none)],
            ⟨c7bBytes, 19, 1, 20, []⟩) :=
  ⟨rfl, rfl⟩

/-! ### C3 counterexample: i64 overflow -/

/-- C3 counterexample: the token "9223372036854775808" matches
`-?[0-9]+`, but `parse_numeric` does not return an `Integer` holding that
value — the i64 conversion fails, the parser records
`InvalidIntegerFormat` and substitutes integer 0. -/
theorem C3_counterexample :
    parseNumeric ⟨overBytes, 0, 1, 1, []⟩ =
      (Value.int 0,
       ⟨overBytes, 19, 1, 20, [⟨1, 20, ErrorKind.invalidIntegerFormat overBytes⟩]⟩) ∧
    Value.int 0 ≠ Value.int 9223372036854775808 := by
  refine ⟨rfl, ?_⟩
  intro h
  injection h with h2
  omega

/-! ### C1: the parser can loop forever -/

/-- At state `hangS` the array-element loop makes no progress:
`parse_value` sees `}`, takes the identifier arm, consumes nothing and
yields an empty string, and the loop continues at the same position; so
every amount of fuel runs out. -/
theorem arrayLoop_stuck : ∀ n acc, parseArrayLoop n hangS acc = none := by
  intro n
  induction n with
  | zero => intro acc; rfl
  | succ m ih =>
    intro acc
    cases m with
    | zero => rfl
    | succ k =>
      have h : parseArrayLoop (k + 1 + 1) hangS acc
          = parseArrayLoop (k + 1) hangS (acc ++ [Value.str []]) := rfl
      rw [h]
      exact ih (acc ++ [Value.str []])

/-- C1 fails on the code: on the input "a [}" (an array body whose next
byte is `}`), `parse` never terminates — for every fuel amount the
embedding runs out of fuel inside `parse_array`'s element loop. -/
theorem C1_parse_hangs : ∀ n, parseDoc n hangBytes = none := by
  intro n
  match n with
  | 0 => rfl
  | 1 => rfl
  | 2 => rfl
  | 3 => rfl
  | k + 4 =>
    have hs : parseArrayLoop k hangS [] = none := arrayLoop_stuck k []
    have h1 : parseArrayBody (k + 1) hangS = none :=
      (rfl : parseArrayBody (k + 1) hangS = parseArrayLoop k hangS []).trans hs
    have h2 : parseValue (k + 2) hangMid = none := map_none_of _ _ h1
    have h3 : parseFieldValue (k + 3) hangMid = none := bind_none_of _ _ h2
    exact bind_none_of _ _ h3

/-! ### C8: missing value on the line -/

/-- C8: at document or struct level, when after the key, its optional
colon and horizontal whitespace the next byte is a newline or end of
input, the loop records `ExpectedValueOnSameLine`, inserts nothing (the
mapping argument of the continuation is unchanged), consumes the newline
if present, and continues with the next line. -/
theorem C8_missingValue :
    (∀ (n : Nat) (s : PState) (root : StructM) (kp : List Nat × PState) (s2 s3 : PState),
      isEof s = false →
      parseKey s = kp →
      kp.1 ≠ [] →
      s2 = (if peekByte kp.2 = some 58 then (nextByte kp.2).2 else kp.2) →
      s3 = skipHws s2 →
      (peekByte s3 = some 10 ∨ isEof s3 = true) →
      parseDocLoop (n + 1) s root =
        parseDocLoop n
          (if peekByte (pushErr s3 .expectedValueOnSameLine) = some 10 then
            (nextByte (pushErr s3 .expectedValueOnSameLine)).2
           else pushErr s3 .expectedValueOnSameLine) root) ∧
    (∀ (n : Nat) (s : PState) (map : StructM) (b : Nat) (kp : List Nat × PState)
        (s2 s3 : PState),
      peekByte s = some b →
      b ≠ 125 →
      parseKey s = kp →
      kp.1 ≠ [] →
      s2 = (if peekByte kp.2 = some 58 then (nextByte kp.2).2 else kp.2) →
      s3 = skipHws s2 →
      (peekByte s3 = some 10 ∨ isEof s3 = true) →
      parseStructLoop (n + 1) s map =
        parseStructLoop n
          (if peekByte (pushErr s3 .expectedValueOnSameLine) = some 10 then
            (nextByte (pushErr s3 .expectedValueOnSameLine)).2
           else pushErr s3 .expectedValueOnSameLine) map) := by
  constructor
  · intro n s root kp s2 s3 heof hkey hne hs2 hs3 hcond
    subst hkey hs2 hs3
    rw [parseDocLoop]
    rw [if_neg (by simp [heof])]
    rw [if_neg hne]
    rw [if_pos hcond]
  · intro n s map b kp s2 s3 hpeek hb hkey hne hs2 hs3 hcond
    subst hkey hs2 hs3
    rw [parseStructLoop]
    simp only [hpeek]
    rw [if_neg hb]
    rw [if_neg hne]
    rw [if_pos hcond]

/-- Witness for C8: document level on the buffer "k\n" and struct level
inside "{k\n}". -/
theorem C8_missingValue_witness :
    parseDocLoop 5 (initState [107, 10]) [] =
      parseDocLoop 4
        (if peekByte (pushErr ⟨[107, 10], 1, 1, 2, []⟩ .expectedValueOnSameLine) = some 10 then
          (nextByte (pushErr ⟨[107, 10], 1, 1, 2, []⟩ .expectedValueOnSameLine)).2
         else pushErr ⟨[107, 10], 1, 1, 2, []⟩ .expectedValueOnSameLine) [] ∧
    parseStructLoop 5 ⟨[123, 107, 10, 125], 1, 1, 2, []⟩ [] =
      parseStructLoop 4
        (if peekByte (pushErr ⟨[123, 107, 10, 125], 2, 1, 3, []⟩ .expectedValueOnSameLine)
            = some 10 then
          (nextByte (pushErr ⟨[123, 107, 10, 125], 2, 1, 3, []⟩ .expectedValueOnSameLine)).2
         else pushErr ⟨[123, 107, 10, 125], 2, 1, 3, []⟩ .expectedValueOnSameLine) [] := by
  constructor
  · exact C8_missingValue.1 4 (initState [107, 10]) []
      ([107], ⟨[107, 10], 1, 1, 2, []⟩) ⟨[107, 10], 1, 1, 2, []⟩ ⟨[107, 10], 1, 1, 2, []⟩
      rfl rfl (by decide) rfl rfl (Or.inl rfl)
  · exact C8_missingValue.2 4 ⟨[123, 107, 10, 125], 1, 1, 2, []⟩ [] 107
      ([107], ⟨[123, 107, 10, 125], 2, 1, 3, []⟩) ⟨[123, 107, 10, 125], 2, 1, 3, []⟩
      ⟨[123, 107, 10, 125], 2, 1, 3, []⟩
      rfl (by decide) rfl (by decide) rfl rfl (Or.inl rfl)

/-! ### Cursor monotonicity (for C5) -/

theorem advanceByte_pos (s : PState) (b : Nat) : (advanceByte s b).pos = s.pos + 1 := by
  unfold advanceByte
  split <;> rfl

theorem advanceByte_pos_le (s : PState) (b : Nat) : s.pos ≤ (advanceByte s b).pos := by
  rw [advanceByte_pos]
  omega

theorem bump_pos_le (s : PState) : s.pos ≤ (bump s).pos := Nat.le_succ _

theorem nextByte_pos_le (s : PState) : s.pos ≤ ((nextByte s).2).pos := by
  unfold nextByte
  cases hp : peekByte s with
  | none => exact Nat.le_refl _
  | some b => exact advanceByte_pos_le s b

theorem pushErr_pos_le (s : PState) (k : ErrorKind) : s.pos ≤ (pushErr s k).pos :=
  Nat.le_refl _

theorem skipWsAux_pos_le : ∀ f s, s.pos ≤ (skipWsAux f s).pos := by
  intro f
  induction f with
  | zero => intro s; exact Nat.le_refl _
  | succ g ih =>
    intro s
    rw [skipWsAux]
    cases hp : peekByte s with
    | none => exact Nat.le_refl _
    | some b =>
      show s.pos ≤ (if isWsB b then skipWsAux g (advanceByte s b) else s).pos
      split
      · exact Nat.le_trans (advanceByte_pos_le s b) (ih _)
      · exact Nat.le_refl _

theorem skipWsRun_pos_le (s : PState) : s.pos ≤ (skipWsRun s).pos :=
  skipWsAux_pos_le _ s

theorem commentBodyAux_pos_le : ∀ f s, s.pos ≤ (commentBodyAux f s).pos := by
  intro f
  induction f with
  | zero => intro s; exact Nat.le_refl _
  | succ g ih =>
    intro s
    rw [commentBodyAux]
    cases hp : peekByte s with
    | none => exact Nat.le_refl _
    | some b =>
      show s.pos ≤ (if b = 10 then advanceByte s b else commentBodyAux g (advanceByte s b)).pos
      split
      · exact advanceByte_pos_le s b
      · exact Nat.le_trans (advanceByte_pos_le s b) (ih _)

theorem commentBody_pos_le (s : PState) : s.pos ≤ (commentBody s).pos :=
  commentBodyAux_pos_le _ s

theorem skipWsCommentsAux_pos_le : ∀ f s, s.pos ≤ (skipWsCommentsAux f s).pos := by
  intro f
  induction f with
  | zero => intro s; exact skipWsRun_pos_le s
  | succ g ih =>
    intro s
    rw [skipWsCommentsAux]
    show s.pos ≤ (if peekByte (skipWsRun s) = some 35 then
        skipWsCommentsAux g (commentBody (advanceByte (skipWsRun s) 35))
      else skipWsRun s).pos
    split
    · exact Nat.le_trans (skipWsRun_pos_le s)
        (Nat.le_trans (advanceByte_pos_le _ 35)
          (Nat.le_trans (commentBody_pos_le _) (ih _)))
    · exact skipWsRun_pos_le s

theorem skipWsComments_pos_le (s : PState) : s.pos ≤ (skipWsComments s).pos :=
  skipWsCommentsAux_pos_le _ s

theorem skipHwsAux_pos_le : ∀ f s, s.pos ≤ (skipHwsAux f s).pos := by
  intro f
  induction f with
  | zero => intro s; exact Nat.le_refl _
  | succ g ih =>
    intro s
    rw [skipHwsAux]
    cases hp : peekByte s with
    | none => exact Nat.le_refl _
    | some b =>
      show s.pos ≤ (if b = 32 || b = 9 then skipHwsAux g (bump s) else s).pos
      split
      · exact Nat.le_trans (bump_pos_le s) (ih _)
      · exact Nat.le_refl _

theorem skipHws_pos_le (s : PState) : s.pos ≤ (skipHws s).pos :=
  skipHwsAux_pos_le _ s

theorem scanIdentAux_pos_le : ∀ f s, s.pos ≤ (scanIdentAux f s).pos := by
  intro f
  induction f with
  | zero => intro s; exact Nat.le_refl _
  | succ g ih =>
    intro s
    rw [scanIdentAux]
    cases hp : peekByte s with
    | none => exact Nat.le_refl _
    | some b =>
      show s.pos ≤ (if isIdentDelim b then s else scanIdentAux g (bump s)).pos
      split
      · exact Nat.le_refl _
      · exact Nat.le_trans (bump_pos_le s) (ih _)

theorem scanIdent_pos_le (s : PState) : s.pos ≤ (scanIdent s).pos :=
  scanIdentAux_pos_le _ s

theorem scanDigitsAux_pos_le : ∀ f s, s.pos ≤ (scanDigitsAux f s).pos := by
  intro f
  induction f with
  | zero => intro s; exact Nat.le_refl _
  | succ g ih =>
    intro s
    rw [scanDigitsAux]
    cases hp : peekByte s with
    | none => exact Nat.le_refl _
    | some b =>
      show s.pos ≤ (if isDigitB b then scanDigitsAux g (bump s) else s).pos
      split
      · exact Nat.le_trans (bump_pos_le s) (ih _)
      · exact Nat.le_refl _

theorem scanDigits_pos_le (s : PState) : s.pos ≤ (scanDigits s).pos :=
  scanDigitsAux_pos_le _ s

theorem stringBodyAux_pos_le : ∀ f s raw, s.pos ≤ ((stringBodyAux f s raw).2).pos := by
  intro f
  induction f with
  | zero => intro s raw; exact Nat.le_refl _
  | succ g ih =>
    intro s raw
    rw [stringBodyAux]
    cases hp : peekByte s with
    | none => exact Nat.le_refl _
    | some b =>
      show s.pos ≤ ((if b = 34 then (raw, advanceByte s b)
        else if b = 92 then
          (match peekByte (advanceByte s b) with
           | none => stringBodyAux g (advanceByte s b) raw
           | some e =>
             stringBodyAux g (advanceByte (advanceByte s b) e)
               (raw ++ [if e = 110 then 10 else if e = 116 then 9 else if e = 114 then 13
                        else if e = 34 then 34 else if e = 92 then 92 else e]))
        else stringBodyAux g (advanceByte s b) (raw ++ [b])).2).pos
      split
      · exact advanceByte_pos_le s b
      · split
        · cases hq : peekByte (advanceByte s b) with
          | none =>
            show s.pos ≤ ((stringBodyAux g (advanceByte s b) raw).2).pos
            exact Nat.le_trans (advanceByte_pos_le s b) (ih _ _)
          | some e =>
            show s.pos ≤ ((stringBodyAux g (advanceByte (advanceByte s b) e) _).2).pos
            exact Nat.le_trans (advanceByte_pos_le s b)
              (Nat.le_trans (advanceByte_pos_le _ e) (ih _ _))
        · exact Nat.le_trans (advanceByte_pos_le s b) (ih _ _)

theorem parseStringFn_pos_le (s : PState) : s.pos ≤ ((parseStringFn s).2).pos :=
  Nat.le_trans (nextByte_pos_le s) (stringBodyAux_pos_le _ _ [])

theorem parseIdentOrString_pos_le (s : PState) : s.pos ≤ ((parseIdentOrString s).2).pos := by
  unfold parseIdentOrString
  dsimp only
  split
  · exact Nat.le_trans (skipWsComments_pos_le s) (parseStringFn_pos_le _)
  · exact Nat.le_trans (skipWsComments_pos_le s) (scanIdent_pos_le _)

theorem parseKey_pos_le (s : PState) : s.pos ≤ ((parseKey s).2).pos :=
  Nat.le_trans (skipWsComments_pos_le s) (parseIdentOrString_pos_le _)

theorem parseVariantNameFn_pos_le (s : PState) : s.pos ≤ ((parseVariantNameFn s).2).pos :=
  scanIdent_pos_le s

theorem toLineEndAux_pos_le : ∀ f s, s.pos ≤ (toLineEndAux f s).pos := by
  intro f
  induction f with
  | zero => intro s; exact Nat.le_refl _
  | succ g ih =>
    intro s
    rw [toLineEndAux]
    cases hp : peekByte s with
    | none => exact Nat.le_refl _
    | some b =>
      show s.pos ≤ (if b = 10 || b = 35 then s else toLineEndAux g (advanceByte s b)).pos
      split
      · exact Nat.le_refl _
      · exact Nat.le_trans (advanceByte_pos_le s b) (ih _)

theorem toLineEnd_pos_le (s : PState) : s.pos ≤ (toLineEnd s).pos :=
  toLineEndAux_pos_le _ s

theorem tupleTextAux_pos_le : ∀ f s, s.pos ≤ (tupleTextAux f s).pos := by
  intro f
  induction f with
  | zero => intro s; exact Nat.le_refl _
  | succ g ih =>
    intro s
    rw [tupleTextAux]
    cases hp : peekByte s with
    | none => exact Nat.le_refl _
    | some b =>
      show s.pos ≤ (if b = 41 || b = 35 || b = 10 then s else tupleTextAux g (advanceByte s b)).pos
      split
      · exact Nat.le_refl _
      · exact Nat.le_trans (advanceByte_pos_le s b) (ih _)

theorem tupleText_pos_le (s : PState) : s.pos ≤ (tupleText s).pos :=
  tupleTextAux_pos_le _ s

theorem syncAux_pos_le : ∀ f s, s.pos ≤ (syncAux f s).pos := by
  intro f
  induction f with
  | zero => intro s; exact Nat.le_refl _
  | succ g ih =>
    intro s
    rw [syncAux]
    cases hp : peekByte s with
    | none => exact Nat.le_refl _
    | some b =>
      show s.pos ≤ (if b = 10 then (nextByte s).2 else syncAux g ((nextByte s).2)).pos
      split
      · exact nextByte_pos_le s
      · exact Nat.le_trans (nextByte_pos_le s) (ih _)

theorem synchronize_pos_le (s : PState) : s.pos ≤ (synchronize s).pos :=
  Nat.le_trans (syncAux_pos_le _ s) (skipWsComments_pos_le _)

theorem requireNewlineOrEof_pos_le (s : PState) : s.pos ≤ (requireNewlineOrEof s).pos := by
  unfold requireNewlineOrEof
  dsimp only
  split
  · exact skipHws_pos_le s
  · split
    · exact skipHws_pos_le s
    · split
      · exact skipHws_pos_le s
      · exact Nat.le_trans (skipHws_pos_le s) (pushErr_pos_le _ _)

theorem parseNumeric_pos_le (s : PState) : s.pos ≤ ((parseNumeric s).2).pos := by
  unfold parseNumeric
  dsimp only
  set s1 := (if peekByte s = some 45 then bump s else s) with hs1
  have h1 : s.pos ≤ s1.pos := by
    rw [hs1]
    split
    · exact bump_pos_le s
    · exact Nat.le_refl _
  set s2 := scanDigits s1 with hs2
  have h2 : s.pos ≤ s2.pos := Nat.le_trans h1 (scanDigits_pos_le _)
  set fs := (if peekByte s2 = some 46 then (true, scanDigits (bump s2)) else (false, s2)) with hfs
  have h3 : s.pos ≤ fs.2.pos := by
    rw [hfs]
    split
    · exact Nat.le_trans h2 (Nat.le_trans (bump_pos_le _) (scanDigits_pos_le _))
    · exact h2
  split
  · exact h3
  · split
    · split
      · exact h3
      · exact h3
    · split
      · exact h3
      · exact h3

/-- Position monotonicity of the whole recursive-descent core: whenever a
fuelled parsing routine completes, its final position is at or above its
entry position. -/
theorem parsePos : ∀ n,
    (∀ s r, parseValue n s = some r → s.pos ≤ r.2.pos) ∧
    (∀ s r, parseTuple n s = some r → s.pos ≤ r.2.pos) ∧
    (∀ s acc r, parseTupleLoop n s acc = some r → s.pos ≤ r.2.pos) ∧
    (∀ s r, parseStructBody n s = some r → s.pos ≤ r.2.pos) ∧
    (∀ s m r, parseStructLoop n s m = some r → s.pos ≤ r.2.pos) ∧
    (∀ s r, parseArrayBody n s = some r → s.pos ≤ r.2.pos) ∧
    (∀ s acc r, parseArrayLoop n s acc = some r → s.pos ≤ r.2.pos) ∧
    (∀ s r, parseFieldValue n s = some r → s.pos ≤ r.2.pos) := by
  intro n
  induction n with
  | zero =>
    exact ⟨fun s r h => Option.noConfusion h, fun s r h => Option.noConfusion h,
      fun s acc r h => Option.noConfusion h, fun s r h => Option.noConfusion h,
      fun s m r h => Option.noConfusion h, fun s r h => Option.noConfusion h,
      fun s acc r h => Option.noConfusion h, fun s r h => Option.noConfusion h⟩
  | succ m ih =>
    obtain ⟨ihV, ihT, ihTL, ihSB, ihSL, ihAB, ihAL, ihF⟩ := ih
    refine ⟨?_, ?_, ?_, ?_, ?_, ?_, ?_, ?_⟩
    · intro s r h
      rw [parseValue] at h
      dsimp only at h
      split at h
      · exact Nat.le_trans (skipWsComments_pos_le s) (ihT _ _ h)
      · cases h
        exact Nat.le_trans (skipWsComments_pos_le s) (parseStringFn_pos_le _)
      · rw [Option.map_eq_some'] at h
        obtain ⟨a, ha, hfa⟩ := h
        subst hfa
        show s.pos ≤ a.2.pos
        exact Nat.le_trans (skipWsComments_pos_le s)
          (Nat.le_trans (nextByte_pos_le _) (ihSB _ _ ha))
      · rw [Option.map_eq_some'] at h
        obtain ⟨a, ha, hfa⟩ := h
        subst hfa
        show s.pos ≤ a.2.pos
        exact Nat.le_trans (skipWsComments_pos_le s)
          (Nat.le_trans (nextByte_pos_le _) (ihAB _ _ ha))
      · split at h
        · rw [Option.map_eq_some'] at h
          obtain ⟨a, ha, hfa⟩ := h
          subst hfa
          show s.pos ≤ a.2.pos
          exact Nat.le_trans (skipWsComments_pos_le s)
            (Nat.le_trans (nextByte_pos_le _)
              (Nat.le_trans (parseVariantNameFn_pos_le _) (ihT _ _ ha)))
        · rw [Option.map_eq_some'] at h
          obtain ⟨a, ha, hfa⟩ := h
          subst hfa
          show s.pos ≤ a.2.pos
          exact Nat.le_trans (skipWsComments_pos_le s)
            (Nat.le_trans (nextByte_pos_le _)
              (Nat.le_trans (parseVariantNameFn_pos_le _)
                (Nat.le_trans (nextByte_pos_le _) (ihSB _ _ ha))))
        · rw [Option.map_eq_some'] at h
          obtain ⟨a, ha, hfa⟩ := h
          subst hfa
          show s.pos ≤ a.2.pos
          exact Nat.le_trans (skipWsComments_pos_le s)
            (Nat.le_trans (nextByte_pos_le _)
              (Nat.le_trans (parseVariantNameFn_pos_le _)
                (Nat.le_trans (nextByte_pos_le _) (ihAB _ _ ha))))
        · cases h
          exact Nat.le_trans (skipWsComments_pos_le s)
            (Nat.le_trans (nextByte_pos_le _) (parseVariantNameFn_pos_le _))
      · split at h
        · cases h
          exact Nat.le_trans (skipWsComments_pos_le s) (parseNumeric_pos_le _)
        · split at h
          · cases h
            exact Nat.le_trans (skipWsComments_pos_le s) (parseIdentOrString_pos_le _)
          · split at h
            · cases h
              exact Nat.le_trans (skipWsComments_pos_le s) (parseIdentOrString_pos_le _)
            · cases h
              exact Nat.le_trans (skipWsComments_pos_le s) (parseIdentOrString_pos_le _)
      · cases h
        exact skipWsComments_pos_le s
    · intro s r h
      rw [parseTuple] at h
      rw [Option.map_eq_some'] at h
      obtain ⟨a, ha, hfa⟩ := h
      subst hfa
      show s.pos ≤ a.2.pos
      exact Nat.le_trans (nextByte_pos_le s) (ihTL _ _ _ ha)
    · intro s acc r h
      rw [parseTupleLoop] at h
      dsimp only at h
      split at h
      · cases h
        exact Nat.le_trans (skipWsComments_pos_le s) (nextByte_pos_le _)
      · split at h
        · cases h
          exact skipWsComments_pos_le s
        · split at h
          · cases h
            exact skipWsComments_pos_le s
          · rw [Option.bind_eq_some] at h
            obtain ⟨vs, hvs, hrest⟩ := h
            have hv2 : (skipWsComments s).pos ≤ vs.2.pos := by
              split at hvs
              · exact ihV _ _ hvs
              · split at hvs
                · exact Nat.le_trans (tupleText_pos_le _) (ihV _ _ hvs)
                · split at hvs
                  · cases hvs
                    exact tupleText_pos_le _
                  · split at hvs
                    · cases hvs
                      exact tupleText_pos_le _
                    · cases hvs
                      exact tupleText_pos_le _
            split at hrest
            · cases hrest
              exact Nat.le_trans (skipWsComments_pos_le s)
                (Nat.le_trans hv2
                  (Nat.le_trans (skipWsComments_pos_le _) (nextByte_pos_le _)))
            · exact Nat.le_trans (skipWsComments_pos_le s)
                (Nat.le_trans hv2
                  (Nat.le_trans (skipWsComments_pos_le _) (ihTL _ _ _ hrest)))
            · cases hrest
              exact Nat.le_trans (skipWsComments_pos_le s)
                (Nat.le_trans hv2 (skipWsComments_pos_le _))
    · intro s r h
      rw [parseStructBody] at h
      exact Nat.le_trans (skipWsComments_pos_le s) (ihSL _ _ _ h)
    · intro s m0 r h
      rw [parseStructLoop] at h
      split at h
      · cases h
        exact Nat.le_refl _
      · split at h
        · cases h
          exact nextByte_pos_le s
        · dsimp only at h
          split at h
          · refine Nat.le_trans ?_ (ihSL _ _ _ h)
            refine Nat.le_trans ?_ (synchronize_pos_le _)
            show s.pos ≤ (match peekByte (parseKey s).2 with
              | some b2 => pushErr (parseKey s).2 (ErrorKind.unexpectedCharacter b2)
              | none => (parseKey s).2).pos
            cases hq : peekByte (parseKey s).2 with
            | none => exact parseKey_pos_le s
            | some b2 => exact Nat.le_trans (parseKey_pos_le s) (pushErr_pos_le _ _)
          · split at h
            · split at h
              · refine Nat.le_trans ?_ (ihSL _ _ _ h)
                split
                · exact Nat.le_trans (parseKey_pos_le s) (Nat.le_trans (nextByte_pos_le _)
                    (Nat.le_trans (skipHws_pos_le _) (Nat.le_trans (pushErr_pos_le _ _)
                      (nextByte_pos_le _))))
                · exact Nat.le_trans (parseKey_pos_le s) (Nat.le_trans (nextByte_pos_le _)
                    (Nat.le_trans (skipHws_pos_le _) (pushErr_pos_le _ _)))
              · rw [Option.bind_eq_some] at h
                obtain ⟨vs, hvs, hrest⟩ := h
                have hv : s.pos ≤ vs.2.pos := by
                  refine Nat.le_trans ?_ (ihF _ _ hvs)
                  exact Nat.le_trans (parseKey_pos_le s)
                    (Nat.le_trans (nextByte_pos_le _) (skipHws_pos_le _))
                exact Nat.le_trans hv (Nat.le_trans (requireNewlineOrEof_pos_le _)
                  (Nat.le_trans (skipWsComments_pos_le _) (ihSL _ _ _ hrest)))
            · split at h
              · refine Nat.le_trans ?_ (ihSL _ _ _ h)
                split
                · exact Nat.le_trans (parseKey_pos_le s)
                    (Nat.le_trans (skipHws_pos_le _)
                      (Nat.le_trans (pushErr_pos_le _ _) (nextByte_pos_le _)))
                · exact Nat.le_trans (parseKey_pos_le s)
                    (Nat.le_trans (skipHws_pos_le _) (pushErr_pos_le _ _))
              · rw [Option.bind_eq_some] at h
                obtain ⟨vs, hvs, hrest⟩ := h
                have hv : s.pos ≤ vs.2.pos := by
                  refine Nat.le_trans ?_ (ihF _ _ hvs)
                  exact Nat.le_trans (parseKey_pos_le s) (skipHws_pos_le _)
                exact Nat.le_trans hv (Nat.le_trans (requireNewlineOrEof_pos_le _)
                  (Nat.le_trans (skipWsComments_pos_le _) (ihSL _ _ _ hrest)))
    · intro s r h
      rw [parseArrayBody] at h
      split at h
      · cases h
        exact Nat.le_trans (skipWsComments_pos_le s) (nextByte_pos_le _)
      · exact Nat.le_trans (skipWsComments_pos_le s) (ihAL _ _ _ h)
    · intro s acc r h
      rw [parseArrayLoop] at h
      dsimp only at h
      split at h
      · cases h
        exact Nat.le_trans (skipWsComments_pos_le s) (nextByte_pos_le _)
      · split at h
        · cases h
          exact skipWsComments_pos_le s
        · rw [Option.bind_eq_some] at h
          obtain ⟨vs, hvs, hrest⟩ := h
          have hv2 : s.pos ≤ vs.2.pos :=
            Nat.le_trans (skipWsComments_pos_le s) (ihV _ _ hvs)
          split at hrest
          · cases hrest
            exact Nat.le_trans hv2
              (Nat.le_trans (skipWsComments_pos_le _) (nextByte_pos_le _))
          · exact Nat.le_trans hv2
              (Nat.le_trans (skipWsComments_pos_le _) (ihAL _ _ _ hrest))
          · cases hrest
            exact Nat.le_trans hv2 (skipWsComments_pos_le _)
    · intro s r h
      rw [parseFieldValue] at h
      dsimp only at h
      split at h
      · exact Nat.le_trans (skipHws_pos_le s) (ihT _ _ h)
      · rw [Option.bind_eq_some] at h
        obtain ⟨fv, hfv, hrest⟩ := h
        have hv2 : s.pos ≤ fv.2.pos :=
          Nat.le_trans (skipHws_pos_le s) (ihV _ _ hfv)
        split at hrest
        · cases hrest
          exact Nat.le_trans hv2 (skipHws_pos_le _)
        · cases hrest
          exact Nat.le_trans hv2 (skipHws_pos_le _)
        · cases hrest
          exact Nat.le_trans hv2 (skipHws_pos_le _)
        · cases hrest
          exact Nat.le_trans hv2 (skipHws_pos_le _)
        · split at hrest
          · cases hrest
            exact skipHws_pos_le s
          · cases hrest
            exact Nat.le_trans hv2
              (Nat.le_trans (skipHws_pos_le _) (toLineEnd_pos_le _))

/-- Position monotonicity of the document loop. -/
theorem parseDocLoopPos : ∀ n s root r,
    parseDocLoop n s root = some r → s.pos ≤ r.2.pos := by
  intro n
  induction n with
  | zero => exact fun s root r h => Option.noConfusion h
  | succ m ih =>
    intro s root r h
    rw [parseDocLoop] at h
    split at h
    · cases h
      exact Nat.le_refl _
    · dsimp only at h
      split at h
      · refine Nat.le_trans ?_ (ih _ _ _ h)
        refine Nat.le_trans ?_ (synchronize_pos_le _)
        show s.pos ≤ (match peekByte (parseKey s).2 with
          | some b => pushErr (parseKey s).2 (ErrorKind.unexpectedCharacter b)
          | none => (parseKey s).2).pos
        cases hq : peekByte (parseKey s).2 with
        | none => exact parseKey_pos_le s
        | some b => exact Nat.le_trans (parseKey_pos_le s) (pushErr_pos_le _ _)
      · split at h
        · split at h
          · refine Nat.le_trans ?_ (ih _ _ _ h)
            split
            · exact Nat.le_trans (parseKey_pos_le s) (Nat.le_trans (nextByte_pos_le _)
                (Nat.le_trans (skipHws_pos_le _) (Nat.le_trans (pushErr_pos_le _ _)
                  (nextByte_pos_le _))))
            · exact Nat.le_trans (parseKey_pos_le s) (Nat.le_trans (nextByte_pos_le _)
                (Nat.le_trans (skipHws_pos_le _) (pushErr_pos_le _ _)))
          · rw [Option.bind_eq_some] at h
            obtain ⟨vs, hvs, hrest⟩ := h
            have hv : s.pos ≤ vs.2.pos := by
              refine Nat.le_trans ?_ ((parsePos m).2.2.2.2.2.2.2 _ _ hvs)
              exact Nat.le_trans (parseKey_pos_le s)
                (Nat.le_trans (nextByte_pos_le _) (skipHws_pos_le _))
            exact Nat.le_trans hv (Nat.le_trans (requireNewlineOrEof_pos_le _)
              (Nat.le_trans (skipWsComments_pos_le _) (ih _ _ _ hrest)))
        · split at h
          · refine Nat.le_trans ?_ (ih _ _ _ h)
            split
            · exact Nat.le_trans (parseKey_pos_le s)
                (Nat.le_trans (skipHws_pos_le _)
                  (Nat.le_trans (pushErr_pos_le _ _) (nextByte_pos_le _)))
            · exact Nat.le_trans (parseKey_pos_le s)
                (Nat.le_trans (skipHws_pos_le _) (pushErr_pos_le _ _))
          · rw [Option.bind_eq_some] at h
            obtain ⟨vs, hvs, hrest⟩ := h
            have hv : s.pos ≤ vs.2.pos := by
              refine Nat.le_trans ?_ ((parsePos m).2.2.2.2.2.2.2 _ _ hvs)
              exact Nat.le_trans (parseKey_pos_le s) (skipHws_pos_le _)
            exact Nat.le_trans hv (Nat.le_trans (requireNewlineOrEof_pos_le _)
              (Nat.le_trans (skipWsComments_pos_le _) (ih _ _ _ hrest)))


/-! ### C5: cursor monotonicity -/

/-- Bytes of the text "k: \x0B \x0B\n" — `\x0B` (vertical tab) is not in
the scanner whitespace set but is trimmed by Rust `str::trim`, so the
field value consumed from the rest of the line trims to nothing. -/
def vtBytes : List Nat := [107, 58, 32, 11, 32, 11, 10]

/-- The state over `vtBytes` at which the document loop calls
`parse_field_value` (after the key `k`, its colon and one space). -/
def vtS : PState := ⟨vtBytes, 3, 1, 4, []⟩

/-- C5 counterexample: on the run of `parse` over `vtBytes` the document
loop hands `parse_field_value` the state `vtS` (position 3); inside it
the value parse and rest-of-line consumption move the cursor to
position 6, and the empty-trim fallback then assigns `pos := 3`: the
read position decreases from 6 to 3 between two successive primitive
steps, so it is not monotone. -/
theorem C5_counterexample :
    skipHws (if peekByte (parseKey (skipWsComments (initState vtBytes))).2 = some 58 then
        (nextByte (parseKey (skipWsComments (initState vtBytes))).2).2
      else (parseKey (skipWsComments (initState vtBytes))).2) = vtS ∧
    parseValue 5 vtS = some (Value.str [11], ⟨vtBytes, 4, 1, 5, []⟩) ∧
    (toLineEnd (skipHws ⟨vtBytes, 4, 1, 5, []⟩)).pos = 6 ∧
    Option.map (fun r => r.2.pos) (parseFieldValue 6 vtS) = some 3 ∧
    3 < 6 :=
  ⟨rfl, rfl, rfl, rfl, by omega⟩

/-- C5 amended: the cursor primitives and every scanner loop never
decrease `pos`, and every parsing routine that completes returns with
`pos` at or above its entry position; the single backward step is
`parse_field_value`'s rest-of-line fallback, which restores `pos` to the
saved start of the value (never below that routine's entry position), as
the counterexample exhibits. -/
theorem C5_amended :
    ((∀ s b, s.pos ≤ (advanceByte s b).pos) ∧
     (∀ s, s.pos ≤ (bump s).pos) ∧
     (∀ s, s.pos ≤ ((nextByte s).2).pos) ∧
     (∀ s k, s.pos ≤ (pushErr s k).pos) ∧
     (∀ s, s.pos ≤ (skipWsRun s).pos) ∧
     (∀ s, s.pos ≤ (commentBody s).pos) ∧
     (∀ s, s.pos ≤ (skipWsComments s).pos) ∧
     (∀ s, s.pos ≤ (skipHws s).pos) ∧
     (∀ s, s.pos ≤ (scanIdent s).pos) ∧
     (∀ s, s.pos ≤ (scanDigits s).pos) ∧
     (∀ s, s.pos ≤ ((parseStringFn s).2).pos) ∧
     (∀ s, s.pos ≤ ((parseIdentOrString s).2).pos) ∧
     (∀ s, s.pos ≤ ((parseKey s).2).pos) ∧
     (∀ s, s.pos ≤ ((parseVariantNameFn s).2).pos) ∧
     (∀ s, s.pos ≤ ((parseNumeric s).2).pos) ∧
     (∀ s, s.pos ≤ (toLineEnd s).pos) ∧
     (∀ s, s.pos ≤ (tupleText s).pos) ∧
     (∀ s, s.pos ≤ (synchronize s).pos) ∧
     (∀ s, s.pos ≤ (requireNewlineOrEof s).pos)) ∧
    ((∀ n s r, parseValue n s = some r → s.pos ≤ r.2.pos) ∧
     (∀ n s r, parseFieldValue n s = some r → s.pos ≤ r.2.pos) ∧
     (∀ n s acc r, parseTupleLoop n s acc = some r → s.pos ≤ r.2.pos) ∧
     (∀ n s m r, parseStructLoop n s m = some r → s.pos ≤ r.2.pos) ∧
     (∀ n s acc r, parseArrayLoop n s acc = some r → s.pos ≤ r.2.pos) ∧
     (∀ n s root r, parseDocLoop n s root = some r → s.pos ≤ r.2.pos)) :=
  ⟨⟨advanceByte_pos_le, bump_pos_le, nextByte_pos_le, pushErr_pos_le,
    skipWsRun_pos_le, commentBody_pos_le, skipWsComments_pos_le, skipHws_pos_le,
    scanIdent_pos_le, scanDigits_pos_le, parseStringFn_pos_le,
    parseIdentOrString_pos_le, parseKey_pos_le, parseVariantNameFn_pos_le,
    parseNumeric_pos_le, toLineEnd_pos_le, tupleText_pos_le, synchronize_pos_le,
    requireNewlineOrEof_pos_le⟩,
   ⟨fun n => (parsePos n).1,
    fun n => (parsePos n).2.2.2.2.2.2.2,
    fun n => (parsePos n).2.2.1,
    fun n => (parsePos n).2.2.2.2.1,
    fun n => (parsePos n).2.2.2.2.2.2.1,
    parseDocLoopPos⟩⟩

/-- Witness for C5 amended: `parse_field_value` over `vtBytes`, fuel 6,
enters at position 3 and (despite the internal reset from 6) returns at
position 3. -/
theorem C5_amended_witness : vtS.pos ≤ (PState.mk vtBytes 3 1 7 []).pos :=
  C5_amended.2.2.1 6 vtS (Value.str [11], ⟨vtBytes, 3, 1, 7, []⟩) rfl


/-! ### C3: numeric literals -/

theorem get?_eq_head_drop : ∀ (l : List Nat) (n : Nat), l.get? n = (l.drop n).head? := by
  intro l
  induction l with
  | nil => intro n; cases n <;> rfl
  | cons a t ih =>
    intro n
    cases n with
    | zero => rfl
    | succ k => exact ih k

theorem peekByte_drop (s : PState) : peekByte s = (s.input.drop s.pos).head? :=
  get?_eq_head_drop s.input s.pos

/-- Advance the cursor by `k` bytes of plain line content (the source's
`pos += 1; column += 1` scan loops, iterated). -/
def bumpN (s : PState) (k : Nat) : PState :=
  { s with pos := s.pos + k, column := s.column + k }

theorem bumpN_zero (s : PState) : bumpN s 0 = s := rfl

theorem bumpN_succ (s : PState) (k : Nat) : bumpN (bump s) k = bumpN s (k + 1) := by
  simp only [bumpN, bump]
  congr 1 <;> omega

theorem drop_bump (s : PState) (d : Nat) (t : List Nat)
    (hdrop : s.input.drop s.pos = d :: t) :
    (bump s).input.drop (bump s).pos = t := by
  show s.input.drop (s.pos + 1) = t
  rw [← List.drop_drop 1 s.pos s.input, hdrop]
  rfl

theorem scanDigitsAux_consumes :
    ∀ (ds rest : List Nat) (s : PState) (f : Nat),
      s.input.drop s.pos = ds ++ rest →
      (∀ b ∈ ds, isDigitB b = true) →
      (∀ b, rest.head? = some b → isDigitB b = false) →
      ds.length ≤ f →
      scanDigitsAux f s = bumpN s ds.length := by
  intro ds
  induction ds with
  | nil =>
    intro rest s f hdrop hds hrest hf
    show scanDigitsAux f s = s
    cases f with
    | zero => rfl
    | succ g =>
      rw [scanDigitsAux, peekByte_drop, hdrop]
      cases rest with
      | nil => rfl
      | cons r rs =>
        have hr : isDigitB r = false := hrest r rfl
        simp [hr]
  | cons d dt ih =>
    intro rest s f hdrop hds hrest hf
    cases f with
    | zero =>
      exact absurd hf (by simp)
    | succ g =>
      rw [scanDigitsAux, peekByte_drop, hdrop]
      have hd : isDigitB d = true := hds d (by simp)
      have hdrop2 : (bump s).input.drop (bump s).pos = dt ++ rest :=
        drop_bump s d (dt ++ rest) (by simpa using hdrop)
      have hrec := ih rest (bump s) g hdrop2
        (fun b hb => hds b (by simp [hb])) hrest (by simpa using hf)
      simp only [List.cons_append, List.head?_cons, hd, if_true]
      rw [hrec, bumpN_succ]
      simp

/-- The digit loop of `parse_numeric` consumes exactly a maximal digit
run. -/
theorem scanDigits_consumes (s : PState) (ds rest : List Nat)
    (hdrop : s.input.drop s.pos = ds ++ rest)
    (hds : ∀ b ∈ ds, isDigitB b = true)
    (hrest : ∀ b, rest.head? = some b → isDigitB b = false) :
    scanDigits s = bumpN s ds.length := by
  refine scanDigitsAux_consumes ds rest s _ hdrop hds hrest ?_
  have h1 : (s.input.drop s.pos).length = s.input.length - s.pos := List.length_drop _ _
  rw [hdrop] at h1
  simp only [List.length_append] at h1
  omega

theorem sliceBytes_bumpN (s : PState) (tok rest : List Nat)
    (hdrop : s.input.drop s.pos = tok ++ rest) :
    sliceBytes (bumpN s tok.length) s.pos (bumpN s tok.length).pos = tok := by
  show List.take (s.pos + tok.length - s.pos) (List.drop s.pos s.input) = tok
  rw [hdrop]
  have h2 : s.pos + tok.length - s.pos = tok.length := by omega
  rw [h2]
  exact List.take_left tok rest

theorem takeWhile_all (p : Nat → Bool) :
    ∀ (xs : List Nat), (∀ b ∈ xs, p b = true) → List.takeWhile p xs = xs := by
  intro xs
  induction xs with
  | nil => intro _; rfl
  | cons a t ih =>
    intro h
    rw [List.takeWhile_cons]
    rw [h a (by simp)]
    simp [ih (fun b hb => h b (by simp [hb]))]

theorem dropWhile_all (p : Nat → Bool) :
    ∀ (xs : List Nat), (∀ b ∈ xs, p b = true) → List.dropWhile p xs = [] := by
  intro xs
  induction xs with
  | nil => intro _; rfl
  | cons a t ih =>
    intro h
    rw [List.dropWhile_cons]
    rw [h a (by simp)]
    simp [ih (fun b hb => h b (by simp [hb]))]

theorem takeWhile_append_not (p : Nat → Bool) (y : Nat) (ys : List Nat) :
    ∀ (xs : List Nat), (∀ b ∈ xs, p b = true) → p y = false →
      List.takeWhile p (xs ++ y :: ys) = xs := by
  intro xs
  induction xs with
  | nil =>
    intro _ hy
    simp [List.takeWhile_cons, hy]
  | cons a t ih =>
    intro h hy
    rw [List.cons_append, List.takeWhile_cons, h a (by simp)]
    simp [ih (fun b hb => h b (by simp [hb])) hy]

theorem dropWhile_append_not (p : Nat → Bool) (y : Nat) (ys : List Nat) :
    ∀ (xs : List Nat), (∀ b ∈ xs, p b = true) → p y = false →
      List.dropWhile p (xs ++ y :: ys) = y :: ys := by
  intro xs
  induction xs with
  | nil =>
    intro _ hy
    simp [List.dropWhile_cons, hy]
  | cons a t ih =>
    intro h hy
    rw [List.cons_append, List.dropWhile_cons, h a (by simp)]
    simp [ih (fun b hb => h b (by simp [hb])) hy]


/-- The signed integer denoted by a sign flag and a digit run. -/
def decSigned (sign : Bool) (ds : List Nat) : Int :=
  if sign then -(decDigits ds : Int) else (decDigits ds : Int)

/-- The token bytes of an optionally signed body. -/
def intTok : Bool → List Nat → List Nat
  | true, body => 45 :: body
  | false, body => body

theorem drop_bumpN (s : PState) (tok rest : List Nat)
    (hdrop : s.input.drop s.pos = tok ++ rest) :
    (bumpN s tok.length).input.drop (bumpN s tok.length).pos = rest := by
  show s.input.drop (s.pos + tok.length) = rest
  rw [← List.drop_drop tok.length s.pos s.input, hdrop]
  exact List.drop_left tok rest

theorem stripSign_digits (ds : List Nat) (hds : ∀ b ∈ ds, isDigitB b = true) :
    stripSign ds = (false, ds) := by
  cases ds with
  | nil => rfl
  | cons d dt =>
    have hd : isDigitB d = true := hds d (by simp)
    show (if d = 45 then ((true : Bool), dt) else (false, d :: dt)) = (false, d :: dt)
    rw [if_neg]
    intro hcon
    subst hcon
    simp [isDigitB] at hd

theorem i64FromStr_digits (sign : Bool) (ds : List Nat) (hne : ds ≠ [])
    (hds : ∀ b ∈ ds, isDigitB b = true)
    (hlo : -(2 ^ 63) ≤ decSigned sign ds) (hhi : decSigned sign ds < 2 ^ 63) :
    i64FromStr (intTok sign ds) = some (decSigned sign ds) := by
  have hall : List.all ds isDigitB = true := by
    rw [List.all_eq_true]
    exact hds
  cases sign with
  | true =>
    show i64FromStr (45 :: ds) = some (decSigned true ds)
    unfold i64FromStr
    have hstrip : stripSign (45 :: ds) = (true, ds) := rfl
    rw [hstrip]
    dsimp only
    rw [if_neg (by simp [hne, hall])]
    rw [if_pos ⟨hlo, hhi⟩]
    rfl
  | false =>
    show i64FromStr ds = some (decSigned false ds)
    unfold i64FromStr
    rw [stripSign_digits ds hds]
    dsimp only
    rw [if_neg (by simp [hne, hall])]
    rw [if_pos ⟨hlo, hhi⟩]
    rfl

theorem parseNumeric_int_spec (s : PState) (sign : Bool) (ds rest : List Nat)
    (hdrop : s.input.drop s.pos = intTok sign ds ++ rest)
    (hne : ds ≠ [])
    (hds : ∀ b ∈ ds, isDigitB b = true)
    (hrest : ∀ b, rest.head? = some b → isDigitB b = false ∧ b ≠ 46)
    (hlo : -(2 ^ 63) ≤ decSigned sign ds) (hhi : decSigned sign ds < 2 ^ 63) :
    parseNumeric s = (Value.int (decSigned sign ds), bumpN s (intTok sign ds).length) := by
  have hall128 : List.all (intTok sign ds) (fun b => decide (b < 128)) = true := by
    rw [List.all_eq_true]
    intro b hb
    have hb2 : b = 45 ∨ b ∈ ds := by
      cases sign with
      | true =>
        rcases List.mem_cons.mp hb with h | h
        · exact Or.inl h
        · exact Or.inr h
      | false => exact Or.inr hb
    simp only [decide_eq_true_eq]
    rcases hb2 with h | h
    · omega
    · have := hds b h
      simp only [isDigitB, Bool.and_eq_true, decide_eq_true_eq] at this
      omega
  unfold parseNumeric
  dsimp only
  -- the sign step
  have e1 : (if peekByte s = some 45 then bump s else s) = (if sign then bump s else s) := by
    cases sign with
    | true =>
      have hpe : peekByte s = some 45 := by
        rw [peekByte_drop, hdrop]
        rfl
      rw [if_pos hpe, if_pos rfl]
    | false =>
      have hpe : ¬ peekByte s = some 45 := by
        rw [peekByte_drop, hdrop]
        cases ds with
        | nil => exact absurd rfl hne
        | cons d dt =>
          have hd : isDigitB d = true := hds d (by simp)
          show ¬ ((d :: (dt ++ rest)).head? = some 45)
          intro hcon
          rw [List.head?_cons] at hcon
          injection hcon with h2
          subst h2
          simp [isDigitB] at hd
      rw [if_neg hpe, if_neg Bool.false_ne_true]
  rw [e1]
  -- the sign-adjusted entry state
  have hdrop1 : (if sign then bump s else s).input.drop (if sign then bump s else s).pos
      = ds ++ rest := by
    cases sign with
    | true =>
      rw [if_pos rfl]
      exact drop_bump s 45 (ds ++ rest) hdrop
    | false =>
      rw [if_neg Bool.false_ne_true]
      exact hdrop
  -- the digit run
  have e2 : scanDigits (if sign then bump s else s)
      = bumpN (if sign then bump s else s) ds.length :=
    scanDigits_consumes _ ds rest hdrop1 hds (fun b hb => (hrest b hb).1)
  rw [e2]
  -- no decimal point follows
  have hpk : peekByte (bumpN (if sign then bump s else s) ds.length) = rest.head? := by
    rw [peekByte_drop, drop_bumpN _ ds rest hdrop1]
  have h46 : ¬ peekByte (bumpN (if sign then bump s else s) ds.length) = some 46 := by
    rw [hpk]
    cases hres : rest.head? with
    | none => exact fun hcon => Option.noConfusion hcon
    | some r =>
      intro hcon
      injection hcon with h2
      subst h2
      exact absurd rfl (hrest 46 hres).2
  rw [if_neg h46]
  dsimp only
  -- the captured slice is the token
  have hfinal : bumpN (if sign then bump s else s) ds.length = bumpN s (intTok sign ds).length := by
    cases sign with
    | true =>
      rw [if_pos rfl, bumpN_succ]
      rfl
    | false =>
      rw [if_neg Bool.false_ne_true]
      rfl
  rw [hfinal]
  have hslice : sliceBytes (bumpN s (intTok sign ds).length) s.pos
      (bumpN s (intTok sign ds).length).pos = intTok sign ds :=
    sliceBytes_bumpN s (intTok sign ds) rest hdrop
  rw [hslice]
  rw [if_neg (not_not_intro hall128)]
  rw [if_neg Bool.false_ne_true]
  rw [i64FromStr_digits sign ds hne hds hlo hhi]

theorem f64FromStr_float (sign : Bool) (ds1 ds2 : List Nat) (h1 : ds1 ≠ [])
    (hd1 : ∀ b ∈ ds1, isDigitB b = true) (hd2 : ∀ b ∈ ds2, isDigitB b = true) :
    f64FromStr (intTok sign (ds1 ++ 46 :: ds2))
      = some (f64OfDecimal sign (decDigits (ds1 ++ ds2)) ds2.length) := by
  have h46 : isDigitB 46 = false := by decide
  have htake := takeWhile_append_not isDigitB 46 ds2 ds1 hd1 h46
  have hdrop := dropWhile_append_not isDigitB 46 ds2 ds1 hd1 h46
  have htake2 := takeWhile_all isDigitB ds2 hd2
  have hdrop2 := dropWhile_all isDigitB ds2 hd2
  cases sign with
  | true =>
    show f64FromStr (45 :: (ds1 ++ 46 :: ds2)) = _
    unfold f64FromStr
    have hstrip : stripSign (45 :: (ds1 ++ 46 :: ds2)) = (true, ds1 ++ 46 :: ds2) := rfl
    rw [hstrip]
    dsimp only
    rw [htake, hdrop]
    dsimp only
    rw [htake2, hdrop2]
    rw [if_pos ⟨rfl, Or.inl h1⟩]
  | false =>
    show f64FromStr (ds1 ++ 46 :: ds2) = _
    unfold f64FromStr
    have hstrip : stripSign (ds1 ++ 46 :: ds2) = (false, ds1 ++ 46 :: ds2) := by
      cases hc : ds1 with
      | nil => exact absurd hc h1
      | cons d dt =>
        have hd : isDigitB d = true := hd1 d (by rw [hc]; simp)
        show (if d = 45 then ((true : Bool), dt ++ 46 :: ds2)
          else (false, d :: (dt ++ 46 :: ds2))) = _
        rw [if_neg]
        · rfl
        · intro hcon
          subst hcon
          simp [isDigitB] at hd
    rw [hstrip]
    dsimp only
    rw [htake, hdrop]
    dsimp only
    rw [htake2, hdrop2]
    rw [if_pos ⟨rfl, Or.inl h1⟩]

theorem parseNumeric_float_spec (s : PState) (sign : Bool) (ds1 ds2 rest : List Nat)
    (hdrop : s.input.drop s.pos = intTok sign (ds1 ++ 46 :: ds2) ++ rest)
    (h1 : ds1 ≠ []) (_h2 : ds2 ≠ [])
    (hd1 : ∀ b ∈ ds1, isDigitB b = true) (hd2 : ∀ b ∈ ds2, isDigitB b = true)
    (hrest : ∀ b, rest.head? = some b → isDigitB b = false) :
    parseNumeric s = (Value.num (f64OfDecimal sign (decDigits (ds1 ++ ds2)) ds2.length),
      bumpN s (intTok sign (ds1 ++ 46 :: ds2)).length) := by
  have hall128 : List.all (intTok sign (ds1 ++ 46 :: ds2)) (fun b => decide (b < 128)) = true := by
    rw [List.all_eq_true]
    intro b hb
    simp only [decide_eq_true_eq]
    have hb2 : b = 45 ∨ b ∈ ds1 ∨ b = 46 ∨ b ∈ ds2 := by
      cases sign with
      | true =>
        rcases List.mem_cons.mp hb with h | h
        · exact Or.inl h
        · rcases List.mem_append.mp h with h | h
          · exact Or.inr (Or.inl h)
          · rcases List.mem_cons.mp h with h | h
            · exact Or.inr (Or.inr (Or.inl h))
            · exact Or.inr (Or.inr (Or.inr h))
      | false =>
        rcases List.mem_append.mp hb with h | h
        · exact Or.inr (Or.inl h)
        · rcases List.mem_cons.mp h with h | h
          · exact Or.inr (Or.inr (Or.inl h))
          · exact Or.inr (Or.inr (Or.inr h))
    rcases hb2 with h | h | h | h
    · omega
    · have := hd1 b h
      simp only [isDigitB, Bool.and_eq_true, decide_eq_true_eq] at this
      omega
    · omega
    · have := hd2 b h
      simp only [isDigitB, Bool.and_eq_true, decide_eq_true_eq] at this
      omega
  unfold parseNumeric
  dsimp only
  have hdropA : s.input.drop s.pos = intTok sign (ds1 ++ 46 :: ds2) ++ rest := hdrop
  -- rewrite the token into head-run form
  have hsplit : intTok sign (ds1 ++ 46 :: ds2) ++ rest
      = intTok sign ds1 ++ (46 :: (ds2 ++ rest)) := by
    cases sign with
    | true =>
      show 45 :: (ds1 ++ 46 :: ds2) ++ rest = 45 :: ds1 ++ 46 :: (ds2 ++ rest)
      simp
    | false =>
      show (ds1 ++ 46 :: ds2) ++ rest = ds1 ++ 46 :: (ds2 ++ rest)
      simp
  rw [hsplit] at hdropA
  -- the sign step
  have e1 : (if peekByte s = some 45 then bump s else s) = (if sign then bump s else s) := by
    cases sign with
    | true =>
      have hpe : peekByte s = some 45 := by
        rw [peekByte_drop, hdropA]
        rfl
      rw [if_pos hpe, if_pos rfl]
    | false =>
      have hpe : ¬ peekByte s = some 45 := by
        rw [peekByte_drop, hdropA]
        cases hc : ds1 with
        | nil => exact absurd hc h1
        | cons d dt =>
          have hd : isDigitB d = true := hd1 d (by rw [hc]; simp)
          show ¬ ((d :: (dt ++ (46 :: (ds2 ++ rest)))).head? = some 45)
          intro hcon
          rw [List.head?_cons] at hcon
          injection hcon with hx
          subst hx
          simp [isDigitB] at hd
      rw [if_neg hpe, if_neg Bool.false_ne_true]
  rw [e1]
  have hdrop1 : (if sign then bump s else s).input.drop (if sign then bump s else s).pos
      = ds1 ++ (46 :: (ds2 ++ rest)) := by
    cases sign with
    | true =>
      rw [if_pos rfl]
      exact drop_bump s 45 _ hdropA
    | false =>
      rw [if_neg Bool.false_ne_true]
      exact hdropA
  have e2 : scanDigits (if sign then bump s else s)
      = bumpN (if sign then bump s else s) ds1.length :=
    scanDigits_consumes _ ds1 (46 :: (ds2 ++ rest)) hdrop1 hd1
      (by
        intro b hb
        rw [List.head?_cons] at hb
        injection hb with hx
        subst hx
        decide)
  rw [e2]
  -- a decimal point follows
  have hdrop2 : (bumpN (if sign then bump s else s) ds1.length).input.drop
      (bumpN (if sign then bump s else s) ds1.length).pos = 46 :: (ds2 ++ rest) :=
    drop_bumpN _ ds1 _ hdrop1
  have hpk : peekByte (bumpN (if sign then bump s else s) ds1.length) = some 46 := by
    rw [peekByte_drop, hdrop2]
    rfl
  rw [if_pos hpk]
  dsimp only
  -- the fraction run
  have hdrop3 : (bump (bumpN (if sign then bump s else s) ds1.length)).input.drop
      (bump (bumpN (if sign then bump s else s) ds1.length)).pos = ds2 ++ rest :=
    drop_bump _ 46 _ hdrop2
  have e3 : scanDigits (bump (bumpN (if sign then bump s else s) ds1.length))
      = bumpN (bump (bumpN (if sign then bump s else s) ds1.length)) ds2.length :=
    scanDigits_consumes _ ds2 rest hdrop3 hd2 hrest
  rw [e3]
  -- the final state is the whole-token bump
  have hlen : bumpN (bump (bumpN (if sign then bump s else s) ds1.length)) ds2.length
      = bumpN s (intTok sign (ds1 ++ 46 :: ds2)).length := by
    cases sign with
    | true =>
      rw [if_pos rfl]
      show bumpN (bump (bumpN (bump s) ds1.length)) ds2.length
        = bumpN s (45 :: (ds1 ++ 46 :: ds2)).length
      simp only [bumpN, bump, List.length_cons, List.length_append]
      congr 1 <;> omega
    | false =>
      rw [if_neg Bool.false_ne_true]
      show bumpN (bump (bumpN s ds1.length)) ds2.length
        = bumpN s (ds1 ++ 46 :: ds2).length
      simp only [bumpN, bump, List.length_cons, List.length_append]
      congr 1 <;> omega
  rw [hlen]
  have hslice : sliceBytes (bumpN s (intTok sign (ds1 ++ 46 :: ds2)).length) s.pos
      (bumpN s (intTok sign (ds1 ++ 46 :: ds2)).length).pos = intTok sign (ds1 ++ 46 :: ds2) :=
    sliceBytes_bumpN s _ rest hdrop
  rw [hslice]
  rw [if_neg (not_not_intro hall128)]
  rw [if_pos rfl]
  rw [f64FromStr_float sign ds1 ds2 h1 hd1 hd2]


/-- C3 amended: for every value token matching `-?[0-9]+` whose denoted
value lies in the signed 64-bit range, `parse_numeric` consumes exactly
the token, records no diagnostic and returns `Integer` holding exactly
the denoted value (an out-of-range token fails the i64 conversion and is
recorded as `InvalidIntegerFormat` with a 0 placeholder, as the
counterexample shows); for every token additionally containing `.`
followed by digits, it returns `Float` holding the nearest binary64
approximation of the decimal text. -/
theorem C3_amended :
    (∀ (s : PState) (sign : Bool) (ds rest : List Nat),
      s.input.drop s.pos = intTok sign ds ++ rest →
      ds ≠ [] →
      (∀ b ∈ ds, isDigitB b = true) →
      (∀ b, rest.head? = some b → isDigitB b = false ∧ b ≠ 46) →
      -(2 ^ 63) ≤ decSigned sign ds → decSigned sign ds < 2 ^ 63 →
      parseNumeric s = (Value.int (decSigned sign ds), bumpN s (intTok sign ds).length)) ∧
    (∀ (s : PState) (sign : Bool) (ds1 ds2 rest : List Nat),
      s.input.drop s.pos = intTok sign (ds1 ++ 46 :: ds2) ++ rest →
      ds1 ≠ [] → ds2 ≠ [] →
      (∀ b ∈ ds1, isDigitB b = true) → (∀ b ∈ ds2, isDigitB b = true) →
      (∀ b, rest.head? = some b → isDigitB b = false) →
      parseNumeric s = (Value.num (f64OfDecimal sign (decDigits (ds1 ++ ds2)) ds2.length),
        bumpN s (intTok sign (ds1 ++ 46 :: ds2)).length)) :=
  ⟨parseNumeric_int_spec, parseNumeric_float_spec⟩

/-- Witness for C3 amended: the tokens "-42" (before a newline) and
"3.14" (at end of input). -/
theorem C3_amended_witness :
    parseNumeric ⟨[45, 52, 50, 10], 0, 1, 1, []⟩
      = (Value.int (decSigned true [52, 50]),
         bumpN ⟨[45, 52, 50, 10], 0, 1, 1, []⟩ (intTok true [52, 50]).length) ∧
    parseNumeric ⟨[51, 46, 49, 52], 0, 1, 1, []⟩
      = (Value.num (f64OfDecimal false (decDigits [51, 49, 52]) [49, 52].length),
         bumpN ⟨[51, 46, 49, 52], 0, 1, 1, []⟩ (intTok false ([51] ++ 46 :: [49, 52])).length) := by
  constructor
  · exact C3_amended.1 ⟨[45, 52, 50, 10], 0, 1, 1, []⟩ true [52, 50] [10]
      rfl (by decide) (by decide)
      (fun b hb => by cases hb; exact ⟨by decide, by decide⟩)
      (by decide) (by decide)
  · exact C3_amended.2 ⟨[51, 46, 49, 52], 0, 1, 1, []⟩ false [51] [49, 52] []
      rfl (by decide) (by decide) (by decide) (by decide)
      (fun b hb => Option.noConfusion hb)


/-! ### C2: key uniqueness -/

/-- Key-list uniqueness: no key occurs twice. -/
def keysNodup : List (List Nat) → Bool
  | [] => true
  | k :: r => !(List.any r (fun k2 => decide (k2 = k))) && keysNodup r

mutual

/-- Every struct nested in the value has pairwise-distinct keys. -/
def valueKU : Value → Bool
  | .str _ => true
  | .int _ => true
  | .num _ => true
  | .bool _ => true
  | .variant _ none => true
  | .variant _ (some v) => valueKU v
  | .struct m => keysNodup (List.map Prod.fst m) && pairsKU m
  | .array l => listKU l
  | .tuple l => listKU l

/-- listKU over the element list. -/
def listKU : List Value → Bool
  | [] => true
  | v :: r => valueKU v && listKU r

/-- pairsKU over the entry values. -/
def pairsKU : List (List Nat × Value) → Bool
  | [] => true
  | p :: r => valueKU p.2 && pairsKU r

end

/-- All structs reachable from the mapping have pairwise-distinct keys. -/
def structKU (m : StructM) : Bool :=
  keysNodup (List.map Prod.fst m) && pairsKU m

theorem valueKU_struct (m : StructM) : valueKU (Value.struct m) = structKU m := rfl

theorem listKU_append (l : List Value) (v : Value) :
    listKU (l ++ [v]) = (listKU l && valueKU v) := by
  induction l with
  | nil => simp [listKU]
  | cons a t ih => simp [listKU, ih, Bool.and_assoc]

theorem pairsKU_append (l1 l2 : List (List Nat × Value)) :
    pairsKU (l1 ++ l2) = (pairsKU l1 && pairsKU l2) := by
  induction l1 with
  | nil => simp [pairsKU]
  | cons a t ih => simp [pairsKU, ih, Bool.and_assoc]

theorem map_fst_overwrite (m : StructM) (k : List Nat) (v : Value) :
    List.map Prod.fst (List.map (fun p => if p.1 = k then (k, v) else p) m)
      = List.map Prod.fst m := by
  induction m with
  | nil => rfl
  | cons p t ih =>
    simp only [List.map_cons, ih]
    congr 1
    split
    · next h => exact h.symm
    · rfl

theorem pairsKU_overwrite (m : StructM) (k : List Nat) (v : Value)
    (hp : pairsKU m = true) (hv : valueKU v = true) :
    pairsKU (List.map (fun p => if p.1 = k then (k, v) else p) m) = true := by
  induction m with
  | nil => rfl
  | cons p t ih =>
    simp only [pairsKU, Bool.and_eq_true] at hp
    simp only [List.map_cons, pairsKU, Bool.and_eq_true]
    refine ⟨?_, ih hp.2⟩
    split
    · exact hv
    · exact hp.1

theorem keysNodup_append_single : ∀ (ks : List (List Nat)) (k : List Nat),
    keysNodup ks = true → List.any ks (fun k2 => decide (k2 = k)) = false →
    keysNodup (ks ++ [k]) = true := by
  intro ks
  induction ks with
  | nil => intro k _ _; rfl
  | cons a t ih =>
    intro k hnd hany
    rw [List.any_cons, Bool.or_eq_false_iff] at hany
    simp only [keysNodup, Bool.and_eq_true, Bool.not_eq_true'] at hnd
    show (!(List.any (t ++ [k]) (fun k2 => decide (k2 = a))) && keysNodup (t ++ [k])) = true
    rw [Bool.and_eq_true, Bool.not_eq_true']
    constructor
    · rw [List.any_append, Bool.or_eq_false_iff]
      refine ⟨hnd.1, ?_⟩
      rw [List.any_cons, List.any_nil, Bool.or_false]
      have : a ≠ k := by
        intro hcon
        rw [hcon] at hany
        simp at hany
      simp [Ne.symm this]
    · exact ih k hnd.2 hany.2

theorem any_map_fst (m : StructM) (k : List Nat) :
    (List.map Prod.fst m).any (fun k2 => decide (k2 = k))
      = List.any m (fun p => decide (p.1 = k)) := by
  induction m with
  | nil => rfl
  | cons p t ih => simp [List.any_cons, ih]

theorem structInsert_KU (m : StructM) (k : List Nat) (v : Value)
    (hm : structKU m = true) (hv : valueKU v = true) :
    structKU (structInsert m k v) = true := by
  unfold structKU at hm ⊢
  rw [Bool.and_eq_true] at hm
  unfold structInsert
  split
  · rw [map_fst_overwrite, Bool.and_eq_true]
    exact ⟨hm.1, pairsKU_overwrite m k v hm.2 hv⟩
  · next hany =>
    rw [Bool.and_eq_true]
    constructor
    · rw [List.map_append]
      refine keysNodup_append_single _ k hm.1 ?_
      rw [any_map_fst]
      exact eq_false_of_ne_true hany
    · rw [pairsKU_append, Bool.and_eq_true]
      exact ⟨hm.2, by simp [pairsKU, hv]⟩

theorem parseNumeric_KU (s : PState) : valueKU (parseNumeric s).1 = true := by
  unfold parseNumeric
  dsimp only
  repeat' split
  all_goals rfl


theorem parseKU : ∀ n,
    (∀ s r, parseValue n s = some r → valueKU r.1 = true) ∧
    (∀ s r, parseTuple n s = some r → valueKU r.1 = true) ∧
    (∀ s acc r, parseTupleLoop n s acc = some r → listKU acc = true → listKU r.1 = true) ∧
    (∀ s r, parseStructBody n s = some r → structKU r.1 = true) ∧
    (∀ s m0 r, parseStructLoop n s m0 = some r → structKU m0 = true → structKU r.1 = true) ∧
    (∀ s r, parseArrayBody n s = some r → listKU r.1 = true) ∧
    (∀ s acc r, parseArrayLoop n s acc = some r → listKU acc = true → listKU r.1 = true) ∧
    (∀ s r, parseFieldValue n s = some r → valueKU r.1 = true) := by
  intro n
  induction n with
  | zero =>
    exact ⟨fun s r h => Option.noConfusion h, fun s r h => Option.noConfusion h,
      fun s acc r h => Option.noConfusion h, fun s r h => Option.noConfusion h,
      fun s m0 r h => Option.noConfusion h, fun s r h => Option.noConfusion h,
      fun s acc r h => Option.noConfusion h, fun s r h => Option.noConfusion h⟩
  | succ m ih =>
    obtain ⟨ihV, ihT, ihTL, ihSB, ihSL, ihAB, ihAL, ihF⟩ := ih
    refine ⟨?_, ?_, ?_, ?_, ?_, ?_, ?_, ?_⟩
    · intro s r h
      rw [parseValue] at h
      dsimp only at h
      split at h
      · exact ihT _ _ h
      · cases h
        rfl
      · rw [Option.map_eq_some'] at h
        obtain ⟨a, ha, hfa⟩ := h
        subst hfa
        show valueKU (Value.struct a.1) = true
        exact ihSB _ _ ha
      · rw [Option.map_eq_some'] at h
        obtain ⟨a, ha, hfa⟩ := h
        subst hfa
        show listKU a.1 = true
        exact ihAB _ _ ha
      · split at h
        · rw [Option.map_eq_some'] at h
          obtain ⟨a, ha, hfa⟩ := h
          subst hfa
          show valueKU a.1 = true
          exact ihT _ _ ha
        · rw [Option.map_eq_some'] at h
          obtain ⟨a, ha, hfa⟩ := h
          subst hfa
          show valueKU (Value.struct a.1) = true
          exact ihSB _ _ ha
        · rw [Option.map_eq_some'] at h
          obtain ⟨a, ha, hfa⟩ := h
          subst hfa
          show listKU a.1 = true
          exact ihAB _ _ ha
        · cases h
          rfl
      · split at h
        · cases h
          exact parseNumeric_KU _
        · split at h
          · cases h
            rfl
          · split at h
            · cases h
              rfl
            · cases h
              rfl
      · cases h
        rfl
    · intro s r h
      rw [parseTuple] at h
      rw [Option.map_eq_some'] at h
      obtain ⟨a, ha, hfa⟩ := h
      subst hfa
      show listKU a.1 = true
      exact ihTL _ _ _ ha rfl
    · intro s acc r h hacc
      rw [parseTupleLoop] at h
      dsimp only at h
      split at h
      · cases h
        exact hacc
      · split at h
        · cases h
          exact hacc
        · split at h
          · cases h
            exact hacc
          · rw [Option.bind_eq_some] at h
            obtain ⟨vs, hvs, hrest⟩ := h
            have hvku : valueKU vs.1 = true := by
              split at hvs
              · exact ihV _ _ hvs
              · split at hvs
                · exact ihV _ _ hvs
                · split at hvs
                  · cases hvs
                    rfl
                  · split at hvs
                    · cases hvs
                      rfl
                    · cases hvs
                      rfl
            have hacc2 : listKU (acc ++ [vs.1]) = true := by
              rw [listKU_append, Bool.and_eq_true]
              exact ⟨hacc, hvku⟩
            split at hrest
            · cases hrest
              exact hacc2
            · exact ihTL _ _ _ hrest hacc2
            · cases hrest
              exact hacc2
    · intro s r h
      rw [parseStructBody] at h
      exact ihSL _ _ _ h rfl
    · intro s m0 r h hm0
      rw [parseStructLoop] at h
      split at h
      · cases h
        exact hm0
      · split at h
        · cases h
          exact hm0
        · dsimp only at h
          split at h
          · exact ihSL _ _ _ h hm0
          · split at h
            · split at h
              · exact ihSL _ _ _ h hm0
              · rw [Option.bind_eq_some] at h
                obtain ⟨vs, hvs, hrest⟩ := h
                exact ihSL _ _ _ hrest
                  (structInsert_KU m0 _ _ hm0 (ihF _ _ hvs))
            · split at h
              · exact ihSL _ _ _ h hm0
              · rw [Option.bind_eq_some] at h
                obtain ⟨vs, hvs, hrest⟩ := h
                exact ihSL _ _ _ hrest
                  (structInsert_KU m0 _ _ hm0 (ihF _ _ hvs))
    · intro s r h
      rw [parseArrayBody] at h
      split at h
      · cases h
        rfl
      · exact ihAL _ _ _ h rfl
    · intro s acc r h hacc
      rw [parseArrayLoop] at h
      dsimp only at h
      split at h
      · cases h
        exact hacc
      · split at h
        · cases h
          exact hacc
        · rw [Option.bind_eq_some] at h
          obtain ⟨vs, hvs, hrest⟩ := h
          have hacc2 : listKU (acc ++ [vs.1]) = true := by
            rw [listKU_append, Bool.and_eq_true]
            exact ⟨hacc, ihV _ _ hvs⟩
          split at hrest
          · cases hrest
            exact hacc2
          · exact ihAL _ _ _ hrest hacc2
          · cases hrest
            exact hacc2
    · intro s r h
      rw [parseFieldValue] at h
      dsimp only at h
      split at h
      · exact ihT _ _ h
      · rw [Option.bind_eq_some] at h
        obtain ⟨fv, hfv, hrest⟩ := h
        have hku : valueKU fv.1 = true := ihV _ _ hfv
        split at hrest
        · cases hrest
          exact hku
        · cases hrest
          exact hku
        · cases hrest
          exact hku
        · cases hrest
          exact hku
        · split at hrest
          · cases hrest
            exact hku
          · cases hrest
            rfl

theorem parseDocLoopKU : ∀ n s root r,
    parseDocLoop n s root = some r → structKU root = true → structKU r.1 = true := by
  intro n
  induction n with
  | zero => exact fun s root r h => absurd h (fun hcon => Option.noConfusion hcon)
  | succ m ih =>
    intro s root r h hroot
    rw [parseDocLoop] at h
    split at h
    · cases h
      exact hroot
    · dsimp only at h
      split at h
      · exact ih _ _ _ h hroot
      · split at h
        · split at h
          · exact ih _ _ _ h hroot
          · rw [Option.bind_eq_some] at h
            obtain ⟨vs, hvs, hrest⟩ := h
            exact ih _ _ _ hrest
              (structInsert_KU root _ _ hroot ((parseKU m).2.2.2.2.2.2.2 _ _ hvs))
        · split at h
          · exact ih _ _ _ h hroot
          · rw [Option.bind_eq_some] at h
            obtain ⟨vs, hvs, hrest⟩ := h
            exact ih _ _ _ hrest
              (structInsert_KU root _ _ hroot ((parseKU m).2.2.2.2.2.2.2 _ _ hvs))


/-- C2: every struct produced by a parse — the root and every struct
nested anywhere in the value tree — holds at most one entry per key, and
when the same key appears on two lines the later value replaces the
earlier one: parsing "k: 1\nk: 2\n" yields exactly one entry for `k`,
holding integer 2. -/
theorem C2_keyUniqueness :
    (∀ n input r, parseDoc n input = some r → structKU r.1 = true) ∧
    parseDoc 60 dupBytes = some ([([107], Value.int 2)], ⟨dupBytes, 10, 3, 1, []⟩) := by
  constructor
  · intro n input r h
    exact parseDocLoopKU n _ [] r h rfl
  · rfl

/-- Witness for C2: the struct parsed from "k: 1\nk: 2\n" has unique
keys. -/
theorem C2_keyUniqueness_witness : structKU [([107], Value.int 2)] = true :=
  C2_keyUniqueness.1 60 dupBytes ([([107], Value.int 2)], ⟨dupBytes, 10, 3, 1, []⟩) rfl


end Yini
